import Mathlib

/-!
# poc-kubernetes-batch: a verification development of `main.go`

The program builds one Kubernetes `Job` definition, creates it, polls the job
until `Status.Succeeded == 1`, lists the pods of the namespace, prints the logs
of every listed pod, re-reads the job and deletes it together with the listed
pods that are `Succeeded` and carry the job's two labels.

The embedding is shallow.  The Kubernetes objects are structures holding the
fields the program reads or writes, under their Go names.  The cluster is a
parameter: an `Orchestrator σ` is a state machine over an arbitrary state `σ`
answering each API call the program makes.  A run is a total function of the
client, the start state and a fuel bound on the number of polling iterations;
it returns the state reached, the events issued (API calls with their answers,
printed lines, sleeps) and an outcome: returned, panicked at a source line, or
still polling when the fuel ran out.
-/

namespace PocBatch

/-! ## Data model (the fields of the Kubernetes API types used by `main.go`) -/

/-- Go `corev1.EnvVar`. -/
structure EnvVar where
  Name : String
  Value : String
  deriving DecidableEq, Repr

/-- Go `corev1.VolumeMount`. -/
structure VolumeMount where
  Name : String
  MountPath : String
  deriving DecidableEq, Repr

/-- Go `corev1.Container`. -/
structure Container where
  Name : String
  Image : String
  ImagePullPolicy : String
  Env : List EnvVar
  Args : List String
  VolumeMounts : List VolumeMount
  deriving DecidableEq, Repr

/-- Go `corev1.EmptyDirVolumeSource`. -/
structure EmptyDirVolumeSource where
  Medium : String
  deriving DecidableEq, Repr

/-- Go `corev1.VolumeSource`; `EmptyDir` is a pointer, `none` is nil. -/
structure VolumeSource where
  EmptyDir : Option EmptyDirVolumeSource
  deriving DecidableEq, Repr

/-- Go `corev1.Volume`. -/
structure Volume where
  Name : String
  VolumeSource : VolumeSource
  deriving DecidableEq, Repr

/-- Go `metav1.ObjectMeta`.  `Labels` is a Go `map[string]string`, kept as an
association list read through `mapIndex`. -/
structure ObjectMeta where
  Name : String
  GenerateName : String
  Namespace : String
  Labels : List (String × String)
  deriving DecidableEq, Repr

/-- Go `corev1.PodSpec`. -/
structure PodSpec where
  InitContainers : List Container
  Containers : List Container
  RestartPolicy : String
  Volumes : List Volume
  deriving DecidableEq, Repr

/-- Go `corev1.PodTemplateSpec`. -/
structure PodTemplateSpec where
  ObjectMeta : ObjectMeta
  Spec : PodSpec
  deriving DecidableEq, Repr

/-- Go `batchv1.JobSpec`; `Parallelism` and `Completions` are `*int32`. -/
structure JobSpec where
  Parallelism : Option Int
  Completions : Option Int
  Template : PodTemplateSpec
  deriving DecidableEq, Repr

/-- Go `batchv1.JobStatus` (`int32` counters). -/
structure JobStatus where
  Succeeded : Int
  Failed : Int
  deriving DecidableEq, Repr

/-- Go `batchv1.Job`. -/
structure Job where
  ObjectMeta : ObjectMeta
  Spec : JobSpec
  Status : JobStatus
  deriving DecidableEq, Repr

/-- Go `corev1.PodStatus`; `Phase` is the string type `PodPhase`. -/
structure PodStatus where
  Phase : String
  deriving DecidableEq, Repr

/-- Go `corev1.Pod`. -/
structure Pod where
  ObjectMeta : ObjectMeta
  Status : PodStatus
  deriving DecidableEq, Repr

/-- Go map indexing `m[k]` on a `map[string]string`: the value stored under
`k`, or the zero value `""` when the key is absent. -/
def mapIndex (m : List (String × String)) (k : String) : String :=
  match m.lookup k with
  | some v => v
  | none => ""

/-- The zero value of `metav1.ObjectMeta`. -/
def ObjectMeta.zero : ObjectMeta :=
  { Name := "", GenerateName := "", Namespace := "", Labels := [] }

/-! ## The constants and the job definition of `main` (lines 24-131) -/

/-- Line 24. -/
def kubeNamespace : String := "poc-kubernetes-batch"

/-- Line 26. -/
def resultsMountPath : String := "/tmp/results"

/-- Line 27. -/
def resultsFile : String := resultsMountPath ++ "/fromInitContainer"

/-- Line 208: `int32Ptr` returns a pointer to its argument. -/
def int32Ptr (i : Int) : Option Int := some i

/-- Lines 57-66. -/
def envVars : List EnvVar :=
  [ { Name := "FOO", Value := "FOOVAL" },
    { Name := "BAR", Value := "BARVAL" } ]

/-- Lines 68-131. -/
def jobDefinition : Job :=
  { ObjectMeta := { ObjectMeta.zero with GenerateName := "poc-job" },
    Spec :=
      { Parallelism := int32Ptr 1,
        Completions := int32Ptr 1,
        Template :=
          { ObjectMeta :=
              { ObjectMeta.zero with
                Labels := [("app", "jobWorker"), ("component", "jobs")],
                Namespace := kubeNamespace },
            Spec :=
              { InitContainers :=
                  [ { Name := "poc-init-container",
                      Image := "alpine:latest",
                      ImagePullPolicy := "IfNotPresent",
                      Env := [],
                      Args :=
                        [ "sh", "-c",
                          "echo Hello Init Container World! > " ++ resultsFile
                            ++ " && cat " ++ resultsFile ],
                      VolumeMounts :=
                        [ { Name := "results", MountPath := resultsMountPath } ] } ],
                Containers :=
                  [ { Name := "poc-main-container",
                      Image := "alpine:latest",
                      ImagePullPolicy := "IfNotPresent",
                      Env := envVars,
                      Args :=
                        [ "sh", "-c",
                          "echo Hello Main Container World! && cat " ++ resultsFile ],
                      VolumeMounts :=
                        [ { Name := "results", MountPath := resultsMountPath } ] } ],
                RestartPolicy := "OnFailure",
                Volumes :=
                  [ { Name := "results",
                      VolumeSource := { EmptyDir := some { Medium := "" } } } ] } } },
    Status := { Succeeded := 0, Failed := 0 } }

/-! ## The cluster as seen by the program -/

deriving instance DecidableEq for Except

/-- One observable step of a run: an API call together with the answer the
cluster gave, a line written to standard output, or a sleep.  Namespaces and
object names are the arguments the program passed. -/
inductive Event where
  /-- `Jobs(ns).Create(&job)`, line 138. -/
  | jobsCreate (ns : String) (job : Job) (resp : Except String Job)
  /-- `Jobs(ns).Get(name, ...)`, lines 147 and 187. -/
  | jobsGet (ns name : String) (resp : Except String Job)
  /-- `Pods(ns).List(...)`, line 166. -/
  | podsList (ns : String) (resp : Except String (List Pod))
  /-- `Pods(ns).GetLogs(name, ...).Do().Raw()`, lines 176-177. -/
  | podsGetLogs (ns name : String) (resp : Except String String)
  /-- `Jobs(ns).Delete(name, ...)`, line 194. -/
  | jobsDelete (ns name : String) (resp : Except String Unit)
  /-- `Pods(ns).Delete(name, ...)`, line 202. -/
  | podsDelete (ns name : String) (resp : Except String Unit)
  /-- `fmt.Printf` / `fmt.Println`. -/
  | print (text : String)
  /-- `time.Sleep`, in seconds. -/
  | sleep (seconds : Nat)
  deriving DecidableEq

/-- How a run, or a part of one, ended. -/
inductive Outcome (α : Type) where
  /-- Control reached the end, with the values computed. -/
  | returned (a : α)
  /-- The statement `panic(err.Error())` at the given line of `main.go` ran. -/
  | panicked (line : Nat) (msg : String)
  /-- The polling loop was still iterating when the fuel ran out. -/
  | polling
  deriving DecidableEq

/-- The result of running a piece of the program from a cluster state. -/
structure Run (σ α : Type) where
  state : σ
  events : List Event
  outcome : Outcome α

/-- The cluster and the client library, as a state machine over `σ`: one
function per call `main.go` makes.  Each call returns the Go result (value or
error) and the cluster state after the call. -/
structure Orchestrator (σ : Type) where
  /-- `clientcmd.BuildConfigFromFlags`, line 38. -/
  BuildConfigFromFlags : Except String Unit
  /-- `kubernetes.NewForConfig`, line 46. -/
  NewForConfig : Except String Unit
  JobsCreate : σ → String → Job → Except String Job × σ
  JobsGet : σ → String → String → Except String Job × σ
  PodsList : σ → String → Except String (List Pod) × σ
  PodsGetLogs : σ → String → String → Except String String × σ
  JobsDelete : σ → String → String → Except String Unit × σ
  PodsDelete : σ → String → String → Except String Unit × σ

/-- The values of the variables `job`, `pods.Items` and `cleanupJob` when
`main` returns. -/
structure Locals where
  job : Job
  pods : List Pod
  cleanupJob : Job
  deriving DecidableEq

/-! ## The program -/

section Program

variable {σ : Type}

/-- Lines 146-160: the loop waiting for the job, run for at most `fuel`
iterations. -/
def pollLoop (o : Orchestrator σ) (jobName : String) : Nat → σ → Run σ Unit
  | 0, s => ⟨s, [], .polling⟩
  | fuel + 1, s =>
    let r := o.JobsGet s kubeNamespace jobName
    match r.1 with
    | .error err => ⟨r.2, [.jobsGet kubeNamespace jobName r.1], .panicked 149 err⟩
    | .ok checkJob =>
      let jobStatus := checkJob.Status.Succeeded
      let line := "Job: " ++ jobName ++ ", Status: " ++ toString jobStatus ++ "\n"
      if jobStatus = 1 then
        ⟨r.2, [.jobsGet kubeNamespace jobName r.1, .print line, .print "Job Completed\n"],
          .returned ()⟩
      else
        let k := pollLoop o jobName fuel r.2
        ⟨k.state,
          .jobsGet kubeNamespace jobName r.1 :: .print line :: .sleep 1 :: k.events,
          k.outcome⟩

/-- Lines 175-183: fetch and print the logs of each listed pod. -/
def collectLogs (o : Orchestrator σ) : List Pod → σ → Run σ Unit
  | [], s => ⟨s, [], .returned ()⟩
  | pod :: rest, s =>
    let r := o.PodsGetLogs s kubeNamespace pod.ObjectMeta.Name
    match r.1 with
    | .error err =>
      ⟨r.2, [.podsGetLogs kubeNamespace pod.ObjectMeta.Name r.1], .panicked 179 err⟩
    | .ok logs =>
      let k := collectLogs o rest r.2
      ⟨k.state,
        .podsGetLogs kubeNamespace pod.ObjectMeta.Name r.1 ::
          .print ("Logs for " ++ pod.ObjectMeta.Name ++ ":\n=====\n" ++ logs ++ "\n=====\n") ::
          k.events,
        k.outcome⟩

/-- The condition of the `if` at line 200. -/
def isCompletedJobPod (pod : Pod) : Bool :=
  pod.Status.Phase == "Succeeded" && mapIndex pod.ObjectMeta.Labels "app" == "jobWorker"
    && mapIndex pod.ObjectMeta.Labels "component" == "jobs"

/-- Lines 198-204: delete the listed pods that pass the test of line 200.  The
result of each `Delete` is discarded. -/
def deletePods (o : Orchestrator σ) : List Pod → σ → σ × List Event
  | [], s => (s, [])
  | pod :: rest, s =>
    if isCompletedJobPod pod then
      let r := o.PodsDelete s kubeNamespace pod.ObjectMeta.Name
      let k := deletePods o rest r.2
      (k.1,
        .print ("Deleting Job Pod: " ++ pod.ObjectMeta.Name ++ ", Status: "
            ++ pod.Status.Phase ++ "\n") ::
          .podsDelete kubeNamespace pod.ObjectMeta.Name r.1 :: k.2)
    else
      deletePods o rest s

/-- Lines 187-205: re-read the job and, when it has succeeded, delete it and the
completed pods.  Returns `cleanupJob`. -/
def cleanup (o : Orchestrator σ) (jobName : String) (pods : List Pod) (s : σ) : Run σ Job :=
  let g := o.JobsGet s kubeNamespace jobName
  match g.1 with
  | .error err => ⟨g.2, [.jobsGet kubeNamespace jobName g.1], .panicked 189 err⟩
  | .ok cleanupJob =>
    if cleanupJob.Status.Succeeded = 1 then
      let d := o.JobsDelete g.2 kubeNamespace cleanupJob.ObjectMeta.Name
      let k := deletePods o pods d.2
      ⟨k.1,
        .jobsGet kubeNamespace jobName g.1 ::
          .print ("Deleting Job: " ++ cleanupJob.ObjectMeta.Name ++ "\n") ::
          .jobsDelete kubeNamespace cleanupJob.ObjectMeta.Name d.1 ::
          .print "Deleting completed pods..\n" :: k.2,
        .returned cleanupJob⟩
    else
      ⟨g.2, [.jobsGet kubeNamespace jobName g.1], .returned cleanupJob⟩

/-- Lines 162-205: list the pods, print their logs, clean up. -/
def afterPoll (o : Orchestrator σ) (job : Job) (s : σ) : Run σ Locals :=
  let l := o.PodsList s kubeNamespace
  match l.1 with
  | .error err => ⟨l.2, [.podsList kubeNamespace l.1], .panicked 168 err⟩
  | .ok pods =>
    let g := collectLogs o pods l.2
    match g.outcome with
    | .panicked line msg => ⟨g.state, .podsList kubeNamespace l.1 :: g.events, .panicked line msg⟩
    | .polling => ⟨g.state, .podsList kubeNamespace l.1 :: g.events, .polling⟩
    | .returned _ =>
      let c := cleanup o job.ObjectMeta.Name pods g.state
      ⟨c.state, .podsList kubeNamespace l.1 :: (g.events ++ c.events),
        match c.outcome with
        | .returned cleanupJob => .returned ⟨job, pods, cleanupJob⟩
        | .panicked line msg => .panicked line msg
        | .polling => .polling⟩

/-- The function `main` (lines 22-206), with at most `fuel` polling iterations. -/
def main (o : Orchestrator σ) (fuel : Nat) (s : σ) : Run σ Locals :=
  match o.BuildConfigFromFlags with
  | .error err => ⟨s, [], .panicked 40 err⟩
  | .ok _ =>
    match o.NewForConfig with
    | .error err => ⟨s, [], .panicked 48 err⟩
    | .ok _ =>
      let c := o.JobsCreate s kubeNamespace jobDefinition
      match c.1 with
      | .error err => ⟨c.2, [.jobsCreate kubeNamespace jobDefinition c.1], .panicked 140 err⟩
      | .ok job =>
        let created : List Event :=
          [.jobsCreate kubeNamespace jobDefinition c.1,
            .print ("Created Job: " ++ job.ObjectMeta.Name ++ "\n")]
        let p := pollLoop o job.ObjectMeta.Name fuel c.2
        match p.outcome with
        | .panicked line msg => ⟨p.state, created ++ p.events, .panicked line msg⟩
        | .polling => ⟨p.state, created ++ p.events, .polling⟩
        | .returned _ =>
          let a := afterPoll o job p.state
          ⟨a.state, created ++ p.events ++ a.events, a.outcome⟩

end Program

/-! ## A small cluster, used to exhibit concrete runs -/

/-- State of the simulated namespace: the jobs and pods it holds and the number
of job reads answered so far. -/
structure Sim where
  jobs : List Job
  pods : List Pod
  reads : Nat
  deriving DecidableEq

/-- A deterministic cluster.  `Create` stores the job under the name
`GenerateName ++ "-x7k2p"`.  `Get` answers `not found` for an unknown name;
otherwise it returns the stored job, with `Status.Succeeded = 1` from the
read numbered `readyAt` on (never, when `readyAt` is `none`) and 0 before.
`List` returns all pods.  `GetLogs` fails for the names in `noLogs`.  The two
`Delete` calls remove the named object, and answer `not found` when there is
none. -/
def sim (readyAt : Option Nat) (noLogs : List String) : Orchestrator Sim where
  BuildConfigFromFlags := .ok ()
  NewForConfig := .ok ()
  JobsCreate s _ job :=
    let j : Job :=
      { job with ObjectMeta := { job.ObjectMeta with Name := job.ObjectMeta.GenerateName ++ "-x7k2p" } }
    (.ok j, { s with jobs := j :: s.jobs })
  JobsGet s _ name :=
    match s.jobs.find? (fun j => j.ObjectMeta.Name == name) with
    | none => (.error "not found", s)
    | some j =>
      let done : Bool := match readyAt with
        | some n => decide (n ≤ s.reads)
        | none => false
      (.ok { j with Status := { j.Status with Succeeded := if done then 1 else 0 } },
        { s with reads := s.reads + 1 })
  PodsList s _ := (.ok s.pods, s)
  PodsGetLogs s _ name :=
    if name ∈ noLogs then (.error "logs unavailable", s) else (.ok "Hello Main Container World!", s)
  JobsDelete s _ name :=
    if s.jobs.any (fun j => j.ObjectMeta.Name == name) then
      (.ok (), { s with jobs := s.jobs.filter (fun j => j.ObjectMeta.Name != name) })
    else (.error "not found", s)
  PodsDelete s _ name :=
    if s.pods.any (fun p => p.ObjectMeta.Name == name) then
      (.ok (), { s with pods := s.pods.filter (fun p => p.ObjectMeta.Name != name) })
    else (.error "not found", s)

/-- A pod with the given name, phase and labels. -/
def mkPod (name phase : String) (labels : List (String × String)) : Pod :=
  { ObjectMeta := { ObjectMeta.zero with Name := name, Labels := labels },
    Status := { Phase := phase } }

/-- The pod the job controller creates for `jobDefinition`, completed. -/
def workerPod : Pod :=
  mkPod "poc-job-x7k2p-abcde" "Succeeded" [("app", "jobWorker"), ("component", "jobs")]

/-- A completed pod of another workload in the same namespace: no labels. -/
def strangerPod : Pod := mkPod "other-pod" "Succeeded" []

/-- A namespace holding the worker pod and a stranger, before any call. -/
def sim0 : Sim := { jobs := [], pods := [workerPod, strangerPod], reads := 0 }

/-! ## Observations on a trace -/

/-- A delete request as the cluster receives it: the kind of object, the
namespace and the name. -/
inductive DeleteRequest where
  | job (ns name : String)
  | pod (ns name : String)
  deriving DecidableEq, Repr

/-- The delete request an event carries, if it is one. -/
def Event.deleteRequest? : Event → Option DeleteRequest
  | .jobsDelete ns name _ => some (.job ns name)
  | .podsDelete ns name _ => some (.pod ns name)
  | _ => none

/-- The delete requests of a trace, in the order issued. -/
def deleteRequests (es : List Event) : List DeleteRequest :=
  es.filterMap Event.deleteRequest?

/-- The pod name of a `GetLogs` request together with its answer. -/
def Event.logFetch? : Event → Option (String × Except String String)
  | .podsGetLogs _ name resp => some (name, resp)
  | _ => none

/-- The `GetLogs` requests of a trace with their answers, in the order issued. -/
def logFetches (es : List Event) : List (String × Except String String) :=
  es.filterMap Event.logFetch?

/-- The pod names of the `GetLogs` requests of a trace, in the order issued. -/
def logRequests (es : List Event) : List String :=
  (logFetches es).map Prod.fst

/-- The answer of a `List` call, if the event is one. -/
def Event.listing? : Event → Option (Except String (List Pod))
  | .podsList _ resp => some resp
  | _ => none

/-- The answers to the pod listings of a trace. -/
def listings (es : List Event) : List (Except String (List Pod)) :=
  es.filterMap Event.listing?

/-- The answer of a job `Get` call, if the event is one. -/
def Event.jobRead? : Event → Option (Except String Job)
  | .jobsGet _ _ resp => some resp
  | _ => none

/-- The answers to the job reads (`Get`) of a trace, in the order issued. -/
def jobReads (es : List Event) : List (Except String Job) :=
  es.filterMap Event.jobRead?

/-- The read answered with a job whose `Status.Succeeded` is 1: the condition
of lines 155 and 192. -/
def observedSuccess (r : Except String Job) : Bool :=
  match r with
  | .ok j => decide (j.Status.Succeeded = 1)
  | .error _ => false

/-- The pod carries the label `k = v`: its label map binds `k` to `v`. -/
def hasLabel (p : Pod) (k v : String) : Prop := p.ObjectMeta.Labels.lookup k = some v

instance (p : Pod) (k v : String) : Decidable (hasLabel p k v) := by
  unfold hasLabel; infer_instance

/-- The state of the cluster after `k` job reads from `s`. -/
def pollState {σ : Type} (o : Orchestrator σ) (jobName : String) : Nat → σ → σ
  | 0, s => s
  | k + 1, s => pollState o jobName k (o.JobsGet s kubeNamespace jobName).2

/-- The answer to the read number `k` (from 0) when the job is read again and
again from `s`: the sequence of status samples the poller is offered. -/
def sample {σ : Type} (o : Orchestrator σ) (jobName : String) (s : σ) (k : Nat) :
    Except String Job :=
  (o.JobsGet (pollState o jobName k s) kubeNamespace jobName).1

/-- The `succeededCount` of sample `k`, when that read is answered. -/
def sampleSucceeded {σ : Type} (o : Orchestrator σ) (jobName : String) (s : σ) (k : Nat) :
    Option Int :=
  match sample o jobName s k with
  | .ok j => some j.Status.Succeeded
  | .error _ => none

/-- The events of a trace before its first pod listing: what `main` does up
to and including the polling loop. -/
def beforeListing (es : List Event) : List Event :=
  es.takeWhile fun e => e.listing?.isNone

/-- The events of a trace from its first pod listing on: what `main` does from
line 166. -/
def fromListing (es : List Event) : List Event :=
  es.dropWhile fun e => e.listing?.isNone

/-- The answers to the status queries of the polling loop (line 147): the job
reads made before the pod listing. -/
def pollReads (es : List Event) : List (Except String Job) :=
  jobReads (beforeListing es)

/-- The answers to the re-query of the job in the cleanup step (line 187): the
job reads made after the pod listing. -/
def rereads (es : List Event) : List (Except String Job) :=
  jobReads (fromListing es)

/-- The cluster state after `Pods(ns).Delete` was called, in order, for each of
the given pods, starting from `s`. -/
def afterPodDeletes {σ : Type} (o : Orchestrator σ) (s : σ) (pods : List Pod) : σ :=
  pods.foldl (fun t p => (o.PodsDelete t kubeNamespace p.ObjectMeta.Name).2) s

/-- The cluster's side of a pod delete, for a notion `present t name` of the
pod `name` being in the namespace in state `t`: a delete answered without error
leaves the named pod absent and brings no pod into the namespace. -/
def DeleteRemoves {σ : Type} (o : Orchestrator σ) (present : σ → String → Prop) : Prop :=
  ∀ t name, (o.PodsDelete t kubeNamespace name).1 = .ok () →
    ¬ present (o.PodsDelete t kubeNamespace name).2 name ∧
      ∀ n, present (o.PodsDelete t kubeNamespace name).2 n → present t n

/-- The cluster's side of a job read: `Get` by name answers with the object of
that name. -/
def GetReturnsNamed {σ : Type} (o : Orchestrator σ) : Prop :=
  ∀ t name j, (o.JobsGet t kubeNamespace name).1 = .ok j → j.ObjectMeta.Name = name

/-- A pod of the given name is in the simulated namespace. -/
def simPresent (t : Sim) (name : String) : Prop :=
  (t.pods.any fun p => p.ObjectMeta.Name == name) = true

/-- The name `sim` gives the job created from `jobDefinition`. -/
def simJobName : String := "poc-job-x7k2p"

/-- The simulated namespace right after `jobDefinition` was created in `sim0`. -/
def simStarted : Sim := ((sim none []).JobsCreate sim0 kubeNamespace jobDefinition).2

/-- The job as `sim` stores it. -/
def simJob : Job :=
  { jobDefinition with ObjectMeta := { jobDefinition.ObjectMeta with Name := simJobName } }

/-- The stored job as `sim` returns it once it is ready. -/
def simJobDone : Job :=
  { simJob with Status := { simJob.Status with Succeeded := 1 } }

/-- A cluster like `sim` in which every job read fails. -/
def simGetFails : Orchestrator Sim :=
  { sim none [] with JobsGet := fun s _ _ => (.error "connection refused", s) }

/-- The cleanup step of lines 187-205 run once on the started namespace, with
the job ready and the listing taken before. -/
def firstCleanup : Run Sim Job :=
  cleanup (sim (some 0) []) simJobName sim0.pods simStarted

/-- The cleanup step run again, for the same job and listing, on the state the
first run left. -/
def secondCleanup : Run Sim Job :=
  cleanup (sim (some 0) []) simJobName sim0.pods firstCleanup.state

/-- Every volume mount of the container names the volume `v` and mounts it at
`path`, and there is at least one. -/
def mountsAt (c : Container) (v path : String) : Prop :=
  c.VolumeMounts ≠ [] ∧ ∀ m ∈ c.VolumeMounts, m.Name = v ∧ m.MountPath = path

/-! ## Observations commute with the structure of a trace -/

@[simp] theorem deleteRequests_nil : deleteRequests [] = [] := rfl

@[simp] theorem deleteRequests_cons (e : Event) (es : List Event) :
    deleteRequests (e :: es) = e.deleteRequest?.toList ++ deleteRequests es := by
  cases h : e.deleteRequest? <;> simp [deleteRequests, List.filterMap_cons, h]

@[simp] theorem deleteRequests_append (a b : List Event) :
    deleteRequests (a ++ b) = deleteRequests a ++ deleteRequests b := by
  simp [deleteRequests]

@[simp] theorem logFetches_nil : logFetches [] = [] := rfl

@[simp] theorem logFetches_cons (e : Event) (es : List Event) :
    logFetches (e :: es) = e.logFetch?.toList ++ logFetches es := by
  cases h : e.logFetch? <;> simp [logFetches, List.filterMap_cons, h]

@[simp] theorem logFetches_append (a b : List Event) :
    logFetches (a ++ b) = logFetches a ++ logFetches b := by
  simp [logFetches]

@[simp] theorem listings_nil : listings [] = [] := rfl

@[simp] theorem listings_cons (e : Event) (es : List Event) :
    listings (e :: es) = e.listing?.toList ++ listings es := by
  cases h : e.listing? <;> simp [listings, List.filterMap_cons, h]

@[simp] theorem listings_append (a b : List Event) :
    listings (a ++ b) = listings a ++ listings b := by
  simp [listings]

@[simp] theorem jobReads_nil : jobReads [] = [] := rfl

@[simp] theorem jobReads_cons (e : Event) (es : List Event) :
    jobReads (e :: es) = e.jobRead?.toList ++ jobReads es := by
  cases h : e.jobRead? <;> simp [jobReads, List.filterMap_cons, h]

@[simp] theorem jobReads_append (a b : List Event) :
    jobReads (a ++ b) = jobReads a ++ jobReads b := by
  simp [jobReads]

/-- Go map indexing returns the non-empty value `v` exactly when the map binds
the key to `v`. -/
theorem mapIndex_eq_iff (m : List (String × String)) (k v : String) (hv : v ≠ "") :
    mapIndex m k = v ↔ m.lookup k = some v := by
  unfold mapIndex
  cases h : m.lookup k with
  | none => simpa using fun h2 => hv h2.symm
  | some w => simp

/-- The test of line 200 holds exactly for the pods in phase `Succeeded` that
carry both labels of the job. -/
theorem isCompletedJobPod_iff (p : Pod) :
    isCompletedJobPod p = true ↔
      p.Status.Phase = "Succeeded" ∧ hasLabel p "app" "jobWorker" ∧
        hasLabel p "component" "jobs" := by
  simp only [isCompletedJobPod, Bool.and_eq_true, beq_iff_eq, hasLabel,
    mapIndex_eq_iff _ _ _ (show "jobWorker" ≠ "" by decide),
    mapIndex_eq_iff _ _ _ (show "jobs" ≠ "" by decide), and_assoc]

/-- A delete request is in the observation of a trace exactly when an event of
the trace carries it. -/
theorem mem_deleteRequests (d : DeleteRequest) (es : List Event) :
    d ∈ deleteRequests es ↔ ∃ e ∈ es, e.deleteRequest? = some d := by
  simp [deleteRequests, List.mem_filterMap]

/-- No event of a trace without listing is a listing. -/
theorem listing?_isNone_of_listings_nil (es : List Event) (h : listings es = []) :
    ∀ e ∈ es, e.listing?.isNone = true := by
  induction es with
  | nil => simp
  | cons a as ih =>
    rw [listings_cons] at h
    have h1 := (List.append_eq_nil.1 h).1
    have h2 := (List.append_eq_nil.1 h).2
    intro e he
    rcases List.mem_cons.1 he with rfl | he
    · cases hl : e.listing? with
      | none => rfl
      | some r => simp [hl] at h1
    · exact ih h2 e he

/-- A trace without listing lies wholly before the listing. -/
theorem split_of_listings_nil (es : List Event) (h : listings es = []) :
    beforeListing es = es ∧ fromListing es = [] := by
  have hall := listing?_isNone_of_listings_nil es h
  constructor
  · exact List.takeWhile_eq_self_iff.2 hall
  · exact List.dropWhile_eq_nil_iff.2 hall

/-- A trace splits at its first listing. -/
theorem split_at_listing (pre rest : List Event) (ns : String)
    (r : Except String (List Pod)) (h : listings pre = []) :
    beforeListing (pre ++ .podsList ns r :: rest) = pre ∧
      fromListing (pre ++ .podsList ns r :: rest) = .podsList ns r :: rest := by
  have hall := listing?_isNone_of_listings_nil pre h
  constructor
  · rw [beforeListing, List.takeWhile_append_of_pos hall]
    simp [List.takeWhile_cons, Event.listing?]
  · rw [fromListing, List.dropWhile_append_of_pos hall]
    simp [List.dropWhile_cons, Event.listing?]

/-- The job reads of a trace are those of the polling loop followed by those
made after the listing. -/
theorem jobReads_split (es : List Event) : jobReads es = pollReads es ++ rereads es := by
  rw [pollReads, rereads, beforeListing, fromListing, ← jobReads_append,
    List.takeWhile_append_dropWhile]

/-! ## The polling loop -/

section PollLemmas

variable {σ : Type} (o : Orchestrator σ) (jobName : String)

@[simp] theorem pollLoop_deleteRequests (fuel : Nat) (s : σ) :
    deleteRequests (pollLoop o jobName fuel s).events = [] := by
  induction fuel generalizing s with
  | zero => simp [pollLoop]
  | succ n ih =>
    simp only [pollLoop]
    split
    · simp [Event.deleteRequest?]
    · split <;> simp [Event.deleteRequest?, ih]

@[simp] theorem pollLoop_logFetches (fuel : Nat) (s : σ) :
    logFetches (pollLoop o jobName fuel s).events = [] := by
  induction fuel generalizing s with
  | zero => simp [pollLoop]
  | succ n ih =>
    simp only [pollLoop]
    split
    · simp [Event.logFetch?]
    · split <;> simp [Event.logFetch?, ih]

@[simp] theorem pollLoop_listings (fuel : Nat) (s : σ) :
    listings (pollLoop o jobName fuel s).events = [] := by
  induction fuel generalizing s with
  | zero => simp [pollLoop]
  | succ n ih =>
    simp only [pollLoop]
    split
    · simp [Event.listing?]
    · split <;> simp [Event.listing?, ih]

/-- The loop returns exactly when one of the first `fuel` samples shows
`Succeeded = 1` and every sample before it was answered with another count. -/
theorem pollLoop_returned_iff (fuel : Nat) (s : σ) :
    (pollLoop o jobName fuel s).outcome = .returned () ↔
      ∃ k, k < fuel ∧ sampleSucceeded o jobName s k = some 1 ∧
        ∀ i, i < k → ∃ c, sampleSucceeded o jobName s i = some c ∧ c ≠ 1 := by
  induction fuel generalizing s with
  | zero => simp [pollLoop]
  | succ n ih =>
    simp only [pollLoop]
    split
    · rename_i err herr
      simp only [false_iff, not_exists, not_and, reduceCtorEq]
      intro k _ hk hall
      rcases Nat.eq_zero_or_pos k with rfl | hpos
      · simp [sampleSucceeded, sample, pollState, herr] at hk
      · obtain ⟨c, hc, _⟩ := hall 0 hpos
        simp [sampleSucceeded, sample, pollState, herr] at hc
    · rename_i checkJob hget
      split
      · rename_i h1
        simp only [true_iff]
        exact ⟨0, Nat.succ_pos n, by simp [sampleSucceeded, sample, pollState, hget, h1],
          fun i hi => absurd hi (Nat.not_lt_zero i)⟩
      · rename_i h1
        simp only [ih]
        constructor
        · rintro ⟨k, hk, hs, hall⟩
          refine ⟨k + 1, Nat.succ_lt_succ hk, hs, ?_⟩
          intro i hi
          rcases i with _ | i
          · exact ⟨checkJob.Status.Succeeded,
              by simp [sampleSucceeded, sample, pollState, hget], h1⟩
          · exact hall i (Nat.lt_of_succ_lt_succ hi)
        · rintro ⟨k, hk, hs, hall⟩
          rcases k with _ | k
          · simp [sampleSucceeded, sample, pollState, hget] at hs
            exact absurd hs h1
          · exact ⟨k, Nat.lt_of_succ_lt_succ hk, hs,
              fun i hi => hall (i + 1) (Nat.succ_lt_succ hi)⟩

/-- The loop is still running after `fuel` iterations exactly when each of the
first `fuel` samples was answered with a count other than 1. -/
theorem pollLoop_polling_iff (fuel : Nat) (s : σ) :
    (pollLoop o jobName fuel s).outcome = .polling ↔
      ∀ k, k < fuel → ∃ c, sampleSucceeded o jobName s k = some c ∧ c ≠ 1 := by
  induction fuel generalizing s with
  | zero => simp [pollLoop]
  | succ n ih =>
    simp only [pollLoop]
    split
    · rename_i err herr
      simp only [false_iff, reduceCtorEq]
      intro hall
      obtain ⟨c, hc, _⟩ := hall 0 (Nat.succ_pos n)
      simp [sampleSucceeded, sample, pollState, herr] at hc
    · rename_i checkJob hget
      split
      · rename_i h1
        simp only [false_iff, reduceCtorEq]
        intro hall
        obtain ⟨c, hc, hne⟩ := hall 0 (Nat.succ_pos n)
        simp [sampleSucceeded, sample, pollState, hget] at hc
        exact hne (hc ▸ h1)
      · rename_i h1
        simp only [ih]
        constructor
        · intro hall k hk
          rcases k with _ | k
          · exact ⟨checkJob.Status.Succeeded,
              by simp [sampleSucceeded, sample, pollState, hget], h1⟩
          · exact hall k (Nat.lt_of_succ_lt_succ hk)
        · intro hall k hk
          exact hall (k + 1) (Nat.succ_lt_succ hk)

end PollLemmas

section PollShape

variable {σ : Type} (o : Orchestrator σ) (jobName : String)

/-- When the loop returns it has read the samples `0 .. k`, `k` being the first
sample with `Succeeded = 1`; it leaves the cluster in the state after those
reads and its last output is `Job Completed`. -/
theorem pollLoop_returned_at (fuel : Nat) (s : σ)
    (h : (pollLoop o jobName fuel s).outcome = .returned ()) :
    ∃ k, k < fuel ∧ sampleSucceeded o jobName s k = some 1 ∧
      (∀ i, i < k → ∃ c, sampleSucceeded o jobName s i = some c ∧ c ≠ 1) ∧
      jobReads (pollLoop o jobName fuel s).events =
        (List.range (k + 1)).map (sample o jobName s) ∧
      (pollLoop o jobName fuel s).state = pollState o jobName (k + 1) s ∧
      (pollLoop o jobName fuel s).events.getLast? = some (.print "Job Completed\n") := by
  induction fuel generalizing s with
  | zero => simp [pollLoop] at h
  | succ n ih =>
    simp only [pollLoop] at h ⊢
    split at h
    · simp at h
    · rename_i checkJob hget
      simp only [hget]
      split at h
      · rename_i h1
        rw [if_pos h1]
        refine ⟨0, Nat.succ_pos n, by simp [sampleSucceeded, sample, pollState, hget, h1],
          fun i hi => absurd hi (Nat.not_lt_zero i), ?_, ?_, ?_⟩
        · simp [Event.jobRead?, sample, pollState, hget, List.range_succ]
        · simp [pollState]
        · simp
      · rename_i h1
        rw [if_neg h1]
        obtain ⟨k, hk, hs, hall, hreads, hstate, hlast⟩ := ih _ h
        refine ⟨k + 1, Nat.succ_lt_succ hk, hs, ?_, ?_, ?_, ?_⟩
        · intro i hi
          rcases i with _ | i
          · exact ⟨checkJob.Status.Succeeded,
              by simp [sampleSucceeded, sample, pollState, hget], h1⟩
          · exact hall i (Nat.lt_of_succ_lt_succ hi)
        · rw [List.range_succ_eq_map]
          simp only [jobReads_cons, Event.jobRead?, Option.toList, List.nil_append,
            List.cons_append, hreads, List.map_cons, List.map_map]
          refine congrArg₂ _ ?_ ?_
          · simp [sample, pollState, hget]
          · apply List.map_congr_left
            intro i _
            simp [sample, pollState]
        · simpa [pollState] using hstate
        · cases hev : (pollLoop o jobName n (o.JobsGet s kubeNamespace jobName).2).events with
          | nil => simp [hev] at hlast
          | cons e es =>
            rw [hev] at hlast
            simpa [List.getLast?_cons_cons] using hlast

end PollShape

section PollOutcome

variable {σ : Type} (o : Orchestrator σ) (jobName : String)

/-- The only panic inside the polling loop is the one of line 149. -/
theorem pollLoop_panicked_line (fuel : Nat) (s : σ) (line : Nat) (msg : String)
    (h : (pollLoop o jobName fuel s).outcome = .panicked line msg) : line = 149 := by
  induction fuel generalizing s with
  | zero => simp [pollLoop] at h
  | succ n ih =>
    simp only [pollLoop] at h
    split at h
    · simp only [Outcome.panicked.injEq] at h
      exact h.1.symm
    · split at h
      · simp at h
      · exact ih _ h

/-- The loop returns only after a read that showed `Succeeded = 1`; until then
no read of the loop shows it. -/
theorem pollLoop_observed (fuel : Nat) (s : σ) :
    ((pollLoop o jobName fuel s).outcome = .returned () →
      ∃ r ∈ jobReads (pollLoop o jobName fuel s).events, observedSuccess r = true) ∧
    ((pollLoop o jobName fuel s).outcome ≠ .returned () →
      ∀ r ∈ jobReads (pollLoop o jobName fuel s).events, observedSuccess r = false) := by
  induction fuel generalizing s with
  | zero => simp [pollLoop]
  | succ n ih =>
    simp only [pollLoop]
    split
    · rename_i err herr
      simp [Event.jobRead?, herr, observedSuccess]
    · rename_i checkJob hget
      split
      · rename_i h1
        simp [Event.jobRead?, hget, observedSuccess, h1]
      · rename_i h1
        obtain ⟨ih1, ih2⟩ := ih (o.JobsGet s kubeNamespace jobName).2
        constructor
        · intro h
          obtain ⟨r, hr, hobs⟩ := ih1 h
          exact ⟨r, by simp [Event.jobRead?, hr], hobs⟩
        · intro h r hr
          simp only [jobReads_cons, Event.jobRead?, Option.toList, List.nil_append,
            List.cons_append, List.mem_cons] at hr
          rcases hr with rfl | hr
          · simp [hget, observedSuccess, h1]
          · exact ih2 h r hr

/-- A read of the loop was answered with an error exactly when the loop ended
with the panic of line 149 carrying that error. -/
theorem pollLoop_error_read_iff (fuel : Nat) (s : σ) (e : String) :
    Except.error e ∈ jobReads (pollLoop o jobName fuel s).events ↔
      (pollLoop o jobName fuel s).outcome = .panicked 149 e := by
  induction fuel generalizing s with
  | zero => simp [pollLoop]
  | succ n ih =>
    simp only [pollLoop]
    cases hget : (o.JobsGet s kubeNamespace jobName).1 with
    | error err =>
      simp only [jobReads_cons, jobReads_nil, Event.jobRead?, Option.toList, List.append_nil,
        List.mem_singleton, Except.error.injEq, Outcome.panicked.injEq, true_and]
      exact eq_comm
    | ok checkJob =>
      by_cases h1 : checkJob.Status.Succeeded = 1
      · simp [h1, Event.jobRead?]
      · simp only [h1, if_false, jobReads_cons, Event.jobRead?, Option.toList, List.nil_append,
          List.cons_append, List.mem_cons, reduceCtorEq, false_or]
        exact ih _

end PollOutcome

/-! ## Log collection -/

section LogsLemmas

variable {σ : Type} (o : Orchestrator σ)

@[simp] theorem collectLogs_deleteRequests (pods : List Pod) (s : σ) :
    deleteRequests (collectLogs o pods s).events = [] := by
  induction pods generalizing s with
  | nil => simp [collectLogs]
  | cons p ps ih =>
    simp only [collectLogs]
    split <;> simp [Event.deleteRequest?, ih]

@[simp] theorem collectLogs_listings (pods : List Pod) (s : σ) :
    listings (collectLogs o pods s).events = [] := by
  induction pods generalizing s with
  | nil => simp [collectLogs]
  | cons p ps ih =>
    simp only [collectLogs]
    split <;> simp [Event.listing?, ih]

@[simp] theorem collectLogs_jobReads (pods : List Pod) (s : σ) :
    jobReads (collectLogs o pods s).events = [] := by
  induction pods generalizing s with
  | nil => simp [collectLogs]
  | cons p ps ih =>
    simp only [collectLogs]
    split <;> simp [Event.jobRead?, ih]

/-- Log collection either completes or panics at line 179. -/
theorem collectLogs_outcome (pods : List Pod) (s : σ) :
    (collectLogs o pods s).outcome = .returned () ∨
      ∃ e, (collectLogs o pods s).outcome = .panicked 179 e := by
  induction pods generalizing s with
  | nil => simp [collectLogs]
  | cons p ps ih =>
    simp only [collectLogs]
    split
    · exact Or.inr ⟨_, rfl⟩
    · exact ih _

/-- The logs are requested pod by pod in listing order, with no regard to
labels: the requests name an initial segment of the listing, and the whole
listing when collection completes. -/
theorem collectLogs_logRequests (pods : List Pod) (s : σ) :
    logRequests (collectLogs o pods s).events <+: pods.map (fun p => p.ObjectMeta.Name) ∧
    ((collectLogs o pods s).outcome = .returned () →
      logRequests (collectLogs o pods s).events = pods.map (fun p => p.ObjectMeta.Name)) := by
  induction pods generalizing s with
  | nil => simp [collectLogs, logRequests]
  | cons p ps ih =>
    simp only [collectLogs]
    split
    · simp [logRequests, Event.logFetch?]
    · obtain ⟨ih1, ih2⟩ := ih (o.PodsGetLogs s kubeNamespace p.ObjectMeta.Name).2
      simp only [logRequests] at ih1 ih2
      simp only [logRequests, logFetches_cons, Event.logFetch?, Option.toList, List.nil_append,
        List.cons_append, List.map_cons]
      exact ⟨(List.prefix_cons_inj _).2 ih1, fun h => by rw [ih2 h]⟩

/-- A failed log fetch ends the run of the loop with the panic of line 179. -/
theorem collectLogs_failed (pods : List Pod) (s : σ) (name e : String)
    (h : (name, Except.error e) ∈ logFetches (collectLogs o pods s).events) :
    (collectLogs o pods s).outcome = .panicked 179 e := by
  induction pods generalizing s with
  | nil => simp [collectLogs] at h
  | cons p ps ih =>
    simp only [collectLogs] at h ⊢
    split
    · rename_i err herr
      simp only [herr] at h
      simp [Event.logFetch?] at h
      simp [h.2]
    · rename_i logs hl
      simp only [hl] at h
      simp [Event.logFetch?] at h
      exact ih _ h

/-- When collection completes, the log of every listed pod was fetched. -/
theorem collectLogs_fetched (pods : List Pod) (s : σ)
    (h : (collectLogs o pods s).outcome = .returned ()) :
    ∀ p ∈ pods, ∃ logs,
      Event.podsGetLogs kubeNamespace p.ObjectMeta.Name (.ok logs) ∈
        (collectLogs o pods s).events := by
  induction pods generalizing s with
  | nil => simp
  | cons q qs ih =>
    simp only [collectLogs] at h ⊢
    split at h
    · simp at h
    · rename_i logs hl
      simp only [hl]
      intro p hp
      rcases List.mem_cons.1 hp with rfl | hp
      · exact ⟨logs, by simp [hl]⟩
      · obtain ⟨l, hmem⟩ := ih _ h p hp
        exact ⟨l, by simp [hmem]⟩

/-- When collection panics, the last fetch is the one that failed, with the
error of the panic, and every fetch before it was answered. -/
theorem collectLogs_panicked_fetch (pods : List Pod) (s : σ) (line : Nat) (e : String)
    (h : (collectLogs o pods s).outcome = .panicked line e) :
    ∃ oks name, logFetches (collectLogs o pods s).events = oks ++ [(name, .error e)] ∧
      ∀ f ∈ oks, ∃ logs, f.2 = Except.ok logs := by
  induction pods generalizing s with
  | nil => simp [collectLogs] at h
  | cons p ps ih =>
    simp only [collectLogs] at h ⊢
    cases hl : (o.PodsGetLogs s kubeNamespace p.ObjectMeta.Name).1 with
    | error err =>
      simp only [hl, Outcome.panicked.injEq] at h
      obtain ⟨_, rfl⟩ := h
      exact ⟨[], p.ObjectMeta.Name, by simp [Event.logFetch?], by simp⟩
    | ok logs =>
      simp only [hl] at h
      obtain ⟨oks, name, hf, hoks⟩ := ih _ h
      refine ⟨(p.ObjectMeta.Name, .ok logs) :: oks, name, by simp [Event.logFetch?, hf], ?_⟩
      intro f hf2
      rcases List.mem_cons.1 hf2 with rfl | hf2
      · exact ⟨logs, rfl⟩
      · exact hoks f hf2

/-- Collection completes exactly when no fetch fails. -/
theorem collectLogs_returned_iff (pods : List Pod) (s : σ) :
    (collectLogs o pods s).outcome = .returned () ↔
      ∀ name e, (name, Except.error e) ∉ logFetches (collectLogs o pods s).events := by
  constructor
  · intro h name e hmem
    have hp := collectLogs_failed o pods s name e hmem
    rw [h] at hp
    exact Outcome.noConfusion hp
  · intro h
    rcases collectLogs_outcome o pods s with hret | ⟨e, he⟩
    · exact hret
    · obtain ⟨oks, name, hf, _⟩ := collectLogs_panicked_fetch o pods s 179 e he
      exact absurd (by simp [hf]) (h name e)

/-- A failed fetch is the last fetch of the collection, and every fetch before
it was answered. -/
theorem collectLogs_failed_last (pods : List Pod) (s : σ) (name e : String)
    (h : (name, Except.error e) ∈ logFetches (collectLogs o pods s).events) :
    ∃ oks, logFetches (collectLogs o pods s).events = oks ++ [(name, .error e)] ∧
      ∀ f ∈ oks, ∃ logs, f.2 = Except.ok logs := by
  obtain ⟨oks, name2, hf, hoks⟩ :=
    collectLogs_panicked_fetch o pods s 179 e (collectLogs_failed o pods s name e h)
  rw [hf] at h
  rcases List.mem_append.1 h with hin | hin
  · obtain ⟨logs, hl⟩ := hoks _ hin
    simp at hl
  · simp only [List.mem_singleton, Prod.mk.injEq, and_true] at hin
    subst hin
    exact ⟨oks, hf, hoks⟩

end LogsLemmas

/-! ## Cleanup -/

section CleanupLemmas

variable {σ : Type} (o : Orchestrator σ)

/-- The pod deletions are, in listing order, the listed pods passing the test
of line 200. -/
theorem deletePods_deleteRequests (pods : List Pod) (s : σ) :
    deleteRequests (deletePods o pods s).2 =
      (pods.filter isCompletedJobPod).map
        (fun p => DeleteRequest.pod kubeNamespace p.ObjectMeta.Name) := by
  induction pods generalizing s with
  | nil => simp [deletePods]
  | cons p ps ih =>
    simp only [deletePods]
    split
    · rename_i h
      simp [Event.deleteRequest?, ih, List.filter_cons, h]
    · rename_i h
      simp [ih, List.filter_cons, h]

@[simp] theorem deletePods_logFetches (pods : List Pod) (s : σ) :
    logFetches (deletePods o pods s).2 = [] := by
  induction pods generalizing s with
  | nil => simp [deletePods]
  | cons p ps ih =>
    simp only [deletePods]
    split <;> simp [Event.logFetch?, ih]

@[simp] theorem deletePods_listings (pods : List Pod) (s : σ) :
    listings (deletePods o pods s).2 = [] := by
  induction pods generalizing s with
  | nil => simp [deletePods]
  | cons p ps ih =>
    simp only [deletePods]
    split <;> simp [Event.listing?, ih]

@[simp] theorem deletePods_jobReads (pods : List Pod) (s : σ) :
    jobReads (deletePods o pods s).2 = [] := by
  induction pods generalizing s with
  | nil => simp [deletePods]
  | cons p ps ih =>
    simp only [deletePods]
    split <;> simp [Event.jobRead?, ih]

/-- The state the pod deletions leave is the one reached by calling `Delete`,
in listing order, for each listed pod passing the test of line 200. -/
theorem deletePods_state (pods : List Pod) (s : σ) :
    (deletePods o pods s).1 = afterPodDeletes o s (pods.filter isCompletedJobPod) := by
  induction pods generalizing s with
  | nil => simp [deletePods, afterPodDeletes]
  | cons p ps ih =>
    simp only [deletePods]
    split
    · rename_i h
      simp only [ih, List.filter_cons, h, if_true]
      simp [afterPodDeletes]
    · rename_i h
      simp only [ih, List.filter_cons, h]
      simp

/-- On a cluster whose answered pod deletes remove the pod, and with every pod
delete of the loop answered, the loop leaves no listed pod that passes the test
of line 200, and brings no pod into the namespace. -/
theorem deletePods_removes (present : σ → String → Prop) (hc : DeleteRemoves o present)
    (pods : List Pod) (s : σ)
    (hok : ∀ ns name resp, Event.podsDelete ns name resp ∈ (deletePods o pods s).2 →
      resp = .ok ()) :
    (∀ n, present (deletePods o pods s).1 n → present s n) ∧
    ∀ p ∈ pods, isCompletedJobPod p = true →
      ¬ present (deletePods o pods s).1 p.ObjectMeta.Name := by
  induction pods generalizing s with
  | nil => simp [deletePods]
  | cons q qs ih =>
    by_cases hq : isCompletedJobPod q = true
    · simp only [deletePods, hq, if_true] at hok ⊢
      have hr : (o.PodsDelete s kubeNamespace q.ObjectMeta.Name).1 = .ok () :=
        hok kubeNamespace q.ObjectMeta.Name _ (by simp)
      obtain ⟨hgone, hmono⟩ := hc s q.ObjectMeta.Name hr
      obtain ⟨ih1, ih2⟩ := ih (o.PodsDelete s kubeNamespace q.ObjectMeta.Name).2
        (fun ns name resp hmem => hok ns name resp (by simp [hmem]))
      refine ⟨fun n hn => hmono n (ih1 n hn), ?_⟩
      intro p hp hcomp
      rcases List.mem_cons.1 hp with rfl | hp
      · exact fun hpres => hgone (ih1 _ hpres)
      · exact ih2 p hp hcomp
    · simp only [deletePods, hq] at hok ⊢
      obtain ⟨ih1, ih2⟩ := ih s hok
      refine ⟨ih1, ?_⟩
      intro p hp hcomp
      rcases List.mem_cons.1 hp with rfl | hp
      · exact absurd hcomp hq
      · exact ih2 p hp hcomp

/-- The three ways the cleanup step can go: the re-read fails and line 189
panics before any delete; the re-read shows a count other than 1 and nothing
is deleted; the re-read shows 1 and the job, then the completed pods, are
deleted, whatever the delete calls answer. -/
theorem cleanup_shape (jobName : String) (pods : List Pod) (s : σ) :
    (∃ e, (o.JobsGet s kubeNamespace jobName).1 = .error e ∧
      (cleanup o jobName pods s).events = [.jobsGet kubeNamespace jobName (.error e)] ∧
      (cleanup o jobName pods s).outcome = .panicked 189 e) ∨
    (∃ cj, (o.JobsGet s kubeNamespace jobName).1 = .ok cj ∧ cj.Status.Succeeded ≠ 1 ∧
      (cleanup o jobName pods s).events = [.jobsGet kubeNamespace jobName (.ok cj)] ∧
      (cleanup o jobName pods s).outcome = .returned cj) ∨
    (∃ cj, (o.JobsGet s kubeNamespace jobName).1 = .ok cj ∧ cj.Status.Succeeded = 1 ∧
      (cleanup o jobName pods s).events =
        .jobsGet kubeNamespace jobName (.ok cj) ::
          .print ("Deleting Job: " ++ cj.ObjectMeta.Name ++ "\n") ::
          .jobsDelete kubeNamespace cj.ObjectMeta.Name
            (o.JobsDelete (o.JobsGet s kubeNamespace jobName).2 kubeNamespace
              cj.ObjectMeta.Name).1 ::
          .print "Deleting completed pods..\n" ::
          (deletePods o pods
            (o.JobsDelete (o.JobsGet s kubeNamespace jobName).2 kubeNamespace
              cj.ObjectMeta.Name).2).2 ∧
      (cleanup o jobName pods s).outcome = .returned cj ∧
      (cleanup o jobName pods s).state =
        (deletePods o pods
          (o.JobsDelete (o.JobsGet s kubeNamespace jobName).2 kubeNamespace
            cj.ObjectMeta.Name).2).1) := by
  cases hget : (o.JobsGet s kubeNamespace jobName).1 with
  | error err =>
    exact Or.inl ⟨err, rfl, by simp [cleanup, hget], by simp [cleanup, hget]⟩
  | ok cj =>
    by_cases h1 : cj.Status.Succeeded = 1
    · refine Or.inr (Or.inr ⟨cj, rfl, h1, ?_, ?_, ?_⟩)
      · simp only [cleanup, hget, if_pos h1]
      · simp [cleanup, hget, h1]
      · simp [cleanup, hget, h1]
    · refine Or.inr (Or.inl ⟨cj, rfl, h1, ?_, ?_⟩)
      · simp [cleanup, hget, h1]
      · simp [cleanup, hget, h1]

@[simp] theorem cleanup_logFetches (jobName : String) (pods : List Pod) (s : σ) :
    logFetches (cleanup o jobName pods s).events = [] := by
  rcases cleanup_shape o jobName pods s with
    ⟨e, _, hev, _⟩ | ⟨cj, _, _, hev, _⟩ | ⟨cj, _, _, hev, _⟩ <;>
  simp [hev, Event.logFetch?]

@[simp] theorem cleanup_listings (jobName : String) (pods : List Pod) (s : σ) :
    listings (cleanup o jobName pods s).events = [] := by
  rcases cleanup_shape o jobName pods s with
    ⟨e, _, hev, _⟩ | ⟨cj, _, _, hev, _⟩ | ⟨cj, _, _, hev, _⟩ <;>
  simp [hev, Event.listing?]

/-- The ways the part of `main` after the polling loop can go: the listing
fails (line 168); a log fetch fails (line 179); or all logs are fetched and the
cleanup step runs on the same listing. -/
theorem afterPoll_shape (job : Job) (s : σ) :
    (∃ e, (afterPoll o job s).events = [.podsList kubeNamespace (.error e)] ∧
      (afterPoll o job s).outcome = .panicked 168 e) ∨
    (∃ pods s1 e, (collectLogs o pods s1).outcome = .panicked 179 e ∧
      (afterPoll o job s).events =
        .podsList kubeNamespace (.ok pods) :: (collectLogs o pods s1).events ∧
      (afterPoll o job s).outcome = .panicked 179 e) ∨
    (∃ pods s1, (collectLogs o pods s1).outcome = .returned () ∧
      (afterPoll o job s).events =
        .podsList kubeNamespace (.ok pods) ::
          ((collectLogs o pods s1).events ++
            (cleanup o job.ObjectMeta.Name pods (collectLogs o pods s1).state).events) ∧
      (afterPoll o job s).state =
        (cleanup o job.ObjectMeta.Name pods (collectLogs o pods s1).state).state ∧
      ((∃ e, (cleanup o job.ObjectMeta.Name pods (collectLogs o pods s1).state).outcome
            = .panicked 189 e ∧ (afterPoll o job s).outcome = .panicked 189 e) ∨
        (∃ cj, (cleanup o job.ObjectMeta.Name pods (collectLogs o pods s1).state).outcome
            = .returned cj ∧ (afterPoll o job s).outcome = .returned ⟨job, pods, cj⟩))) := by
  cases hl : (o.PodsList s kubeNamespace).1 with
  | error err =>
    exact Or.inl ⟨err, by simp [afterPoll, hl], by simp [afterPoll, hl]⟩
  | ok pods =>
    rcases collectLogs_outcome o pods (o.PodsList s kubeNamespace).2 with hret | ⟨e, he⟩
    · refine Or.inr (Or.inr ⟨pods, (o.PodsList s kubeNamespace).2, hret, ?_, ?_, ?_⟩)
      · simp [afterPoll, hret, hl]
      · simp [afterPoll, hret, hl]
      · rcases cleanup_shape o job.ObjectMeta.Name pods
            (collectLogs o pods (o.PodsList s kubeNamespace).2).state with
          ⟨e, _, _, hout⟩ | ⟨cj, _, _, _, hout⟩ | ⟨cj, _, _, _, hout, _⟩
        · exact Or.inl ⟨e, hout, by simp [afterPoll, hl, hret, hout]⟩
        · exact Or.inr ⟨cj, hout, by simp [afterPoll, hl, hret, hout]⟩
        · exact Or.inr ⟨cj, hout, by simp [afterPoll, hl, hret, hout]⟩
    · refine Or.inr (Or.inl ⟨pods, (o.PodsList s kubeNamespace).2, e, he, ?_, ?_⟩)
      · simp [afterPoll, he, hl]
      · simp [afterPoll, he, hl]

/-- The part of `main` after the polling loop starts with the pod listing and
never ends with the panic of line 149. -/
theorem afterPoll_head (job : Job) (s : σ) :
    (∃ r rest, (afterPoll o job s).events = .podsList kubeNamespace r :: rest) ∧
    ∀ e, (afterPoll o job s).outcome ≠ .panicked 149 e := by
  rcases afterPoll_shape o job s with
    ⟨e, hev, hout⟩ | ⟨pods, s1, e, _, hev, hout⟩ | ⟨pods, s1, _, hev, _, hcl⟩
  · exact ⟨⟨_, _, hev⟩, by simp [hout]⟩
  · exact ⟨⟨_, _, hev⟩, by simp [hout]⟩
  · refine ⟨⟨_, _, hev⟩, ?_⟩
    rcases hcl with ⟨e, _, hout⟩ | ⟨cj, _, hout⟩ <;> simp [hout]

/-- A run of `main` either stops before the pod listing, having issued no
listing, log fetch or delete, or passes the polling loop, after a read that
showed `Succeeded = 1` and with no read failed, and continues with the part
after the loop. -/
theorem main_shape (fuel : Nat) (s : σ) :
    ((∀ L, (main o fuel s).outcome ≠ .returned L) ∧
      (∀ e, (main o fuel s).outcome ≠ .panicked 168 e) ∧
      (∀ e, (main o fuel s).outcome ≠ .panicked 179 e) ∧
      (∀ e, (main o fuel s).outcome ≠ .panicked 189 e) ∧
      ((main o fuel s).outcome = .polling ∨
        ∀ r ∈ jobReads (main o fuel s).events, observedSuccess r = false) ∧
      deleteRequests (main o fuel s).events = [] ∧
      logFetches (main o fuel s).events = [] ∧
      listings (main o fuel s).events = [] ∧
      (∀ e, Except.error e ∈ jobReads (main o fuel s).events ↔
        (main o fuel s).outcome = .panicked 149 e)) ∨
    (∃ job pre s1, (∃ r ∈ jobReads pre, observedSuccess r = true) ∧
      deleteRequests pre = [] ∧ logFetches pre = [] ∧ listings pre = [] ∧
      (main o fuel s).events = pre ++ (afterPoll o job s1).events ∧
      (main o fuel s).outcome = (afterPoll o job s1).outcome ∧
      Event.jobsCreate kubeNamespace jobDefinition (.ok job) ∈ pre ∧
      (∀ e, Except.error e ∉ jobReads pre) ∧
      (main o fuel s).state = (afterPoll o job s1).state) := by
  cases hb : o.BuildConfigFromFlags with
  | error err => exact Or.inl (by simp [main, hb])
  | ok _ =>
    cases hn : o.NewForConfig with
    | error err => exact Or.inl (by simp [main, hb, hn])
    | ok _ =>
      cases hc : (o.JobsCreate s kubeNamespace jobDefinition).1 with
      | error err =>
        exact Or.inl (by simp [main, hb, hn, hc, Event.deleteRequest?, Event.logFetch?,
          Event.listing?, Event.jobRead?])
      | ok job =>
        have hobs := pollLoop_observed o job.ObjectMeta.Name fuel
          (o.JobsCreate s kubeNamespace jobDefinition).2
        have herr := pollLoop_error_read_iff o job.ObjectMeta.Name fuel
          (o.JobsCreate s kubeNamespace jobDefinition).2
        cases hp : (pollLoop o job.ObjectMeta.Name fuel
            (o.JobsCreate s kubeNamespace jobDefinition).2).outcome with
        | panicked line msg =>
          have hline := pollLoop_panicked_line o _ _ _ _ _ hp
          subst hline
          refine Or.inl ⟨?_, ?_, ?_, ?_, Or.inr ?_, ?_, ?_, ?_, ?_⟩
          · simp [main, hb, hn, hc, hp]
          · simp [main, hb, hn, hc, hp]
          · simp [main, hb, hn, hc, hp]
          · simp [main, hb, hn, hc, hp]
          · simpa [main, hb, hn, hc, hp, Event.jobRead?] using hobs.2 (by simp [hp])
          · simp [main, hb, hn, hc, hp, Event.deleteRequest?]
          · simp [main, hb, hn, hc, hp, Event.logFetch?]
          · simp [main, hb, hn, hc, hp, Event.listing?]
          · intro e
            rw [hp] at herr
            simpa [main, hb, hn, hc, hp, Event.jobRead?] using herr e
        | polling =>
          refine Or.inl ⟨?_, ?_, ?_, ?_, Or.inl ?_, ?_, ?_, ?_, ?_⟩
          · simp [main, hb, hn, hc, hp]
          · simp [main, hb, hn, hc, hp]
          · simp [main, hb, hn, hc, hp]
          · simp [main, hb, hn, hc, hp]
          · simp [main, hb, hn, hc, hp]
          · simp [main, hb, hn, hc, hp, Event.deleteRequest?]
          · simp [main, hb, hn, hc, hp, Event.logFetch?]
          · simp [main, hb, hn, hc, hp, Event.listing?]
          · intro e
            rw [hp] at herr
            simpa [main, hb, hn, hc, hp, Event.jobRead?] using herr e
        | returned u =>
          refine Or.inr ⟨job,
            [.jobsCreate kubeNamespace jobDefinition (.ok job),
              .print ("Created Job: " ++ job.ObjectMeta.Name ++ "\n")] ++
              (pollLoop o job.ObjectMeta.Name fuel
                (o.JobsCreate s kubeNamespace jobDefinition).2).events,
            (pollLoop o job.ObjectMeta.Name fuel
              (o.JobsCreate s kubeNamespace jobDefinition).2).state, ?_, ?_, ?_, ?_, ?_, ?_,
            by simp, ?_, ?_⟩
          · obtain ⟨r, hr, hobs1⟩ := hobs.1 hp
            exact ⟨r, by simp [Event.jobRead?, hr], hobs1⟩
          · simp [Event.deleteRequest?]
          · simp [Event.logFetch?]
          · simp [Event.listing?]
          · simp only [main, hb, hn, hc, hp]
          · simp only [main, hb, hn, hc, hp]
          · intro e
            rw [hp] at herr
            simpa [Event.jobRead?] using herr e
          · simp only [main, hb, hn, hc, hp]

/-- A run of `main` issues delete requests only on its successful path: either
it issues none, and the re-read of line 187, if made, did not show
`Succeeded = 1`; or it returned after the polling loop saw `Succeeded = 1`, one
listing was answered, the log of every listed pod was fetched, the re-read
showed `Succeeded = 1`, and then, after all of that, the job and the completed
pods of the listing were deleted, in this order, the run ending in the cluster
state those delete calls left. -/
theorem main_deletes (fuel : Nat) (s : σ) :
    (deleteRequests (main o fuel s).events = [] ∧
      (∀ L, (main o fuel s).outcome = .returned L → L.cleanupJob.Status.Succeeded ≠ 1) ∧
      ∀ cj, Except.ok cj ∈ rereads (main o fuel s).events → cj.Status.Succeeded ≠ 1) ∨
    (∃ job pods cj pre post st,
      (main o fuel s).outcome = .returned ⟨job, pods, cj⟩ ∧
      cj.Status.Succeeded = 1 ∧
      (main o fuel s).events = pre ++ post ∧
      deleteRequests pre = [] ∧
      listings pre = [.ok pods] ∧
      listings post = [] ∧
      logFetches post = [] ∧
      (∃ r ∈ pollReads (main o fuel s).events, observedSuccess r = true) ∧
      (∀ p ∈ pods, ∃ logs,
        Event.podsGetLogs kubeNamespace p.ObjectMeta.Name (.ok logs) ∈ pre) ∧
      Event.jobsCreate kubeNamespace jobDefinition (.ok job) ∈ pre ∧
      deleteRequests post =
        .job kubeNamespace cj.ObjectMeta.Name ::
          (pods.filter isCompletedJobPod).map
            (fun p => DeleteRequest.pod kubeNamespace p.ObjectMeta.Name) ∧
      rereads (main o fuel s).events = [.ok cj] ∧
      (o.JobsGet st kubeNamespace job.ObjectMeta.Name).1 = .ok cj ∧
      (main o fuel s).state =
        afterPodDeletes o
          (o.JobsDelete (o.JobsGet st kubeNamespace job.ObjectMeta.Name).2 kubeNamespace
            cj.ObjectMeta.Name).2
          (pods.filter isCompletedJobPod) ∧
      ∀ present, DeleteRemoves o present →
        (∀ ns name resp, Event.podsDelete ns name resp ∈ (main o fuel s).events →
          resp = .ok ()) →
        ∀ p ∈ pods, isCompletedJobPod p = true →
          ¬ present (main o fuel s).state p.ObjectMeta.Name) := by
  rcases main_shape o fuel s with hA |
    ⟨job, pre, s1, hobs, hd, hlf, hls, hev, hout, hcr, _, hst⟩
  · refine Or.inl ⟨hA.2.2.2.2.2.1, fun L h => absurd h (hA.1 L), ?_⟩
    intro cj hcj
    rw [rereads, (split_of_listings_nil _ hA.2.2.2.2.2.2.2.1).2] at hcj
    simp at hcj
  · rcases afterPoll_shape o job s1 with
      ⟨e, hev2, hout2⟩ | ⟨pods, s2, e, hlo, hev2, hout2⟩ | ⟨pods, s2, hlo, hev2, hst2, hcl⟩
    · refine Or.inl ⟨?_, ?_, ?_⟩
      · simp [hev, hev2, hd, Event.deleteRequest?]
      · intro L h
        rw [hout, hout2] at h
        simp at h
      · intro cj hcj
        rw [rereads, hev, hev2, (split_at_listing pre _ _ _ hls).2] at hcj
        simp [Event.jobRead?] at hcj
    · refine Or.inl ⟨?_, ?_, ?_⟩
      · simp [hev, hev2, hd, Event.deleteRequest?]
      · intro L h
        rw [hout, hout2] at h
        simp at h
      · intro cj hcj
        rw [rereads, hev, hev2, (split_at_listing pre _ _ _ hls).2] at hcj
        simp [Event.jobRead?] at hcj
    · have hsplit := split_at_listing pre
        ((collectLogs o pods s2).events ++
          (cleanup o job.ObjectMeta.Name pods (collectLogs o pods s2).state).events)
        kubeNamespace (.ok pods) hls
      have hre : rereads (main o fuel s).events =
          jobReads (cleanup o job.ObjectMeta.Name pods (collectLogs o pods s2).state).events := by
        rw [rereads, hev, hev2, hsplit.2]
        simp [Event.jobRead?]
      rcases cleanup_shape o job.ObjectMeta.Name pods (collectLogs o pods s2).state with
        ⟨e, _, hev3, hout3⟩ | ⟨cj, _, hne, hev3, hout3⟩ | ⟨cj, hget, h1, hev3, hout3, hst3⟩
      · refine Or.inl ⟨?_, ?_, ?_⟩
        · simp [hev, hev2, hev3, hd, Event.deleteRequest?]
        · intro L h
          rcases hcl with ⟨e2, _, ho⟩ | ⟨cj, hc, _⟩
          · rw [hout, ho] at h
            simp at h
          · rw [hout3] at hc
            simp at hc
        · intro cj hcj
          rw [hre, hev3] at hcj
          simp [Event.jobRead?] at hcj
      · refine Or.inl ⟨?_, ?_, ?_⟩
        · simp [hev, hev2, hev3, hd, Event.deleteRequest?]
        · intro L h
          rcases hcl with ⟨e2, hc, _⟩ | ⟨cj2, hc, ho⟩
          · rw [hout3] at hc
            simp at hc
          · rw [hout3] at hc
            simp only [Outcome.returned.injEq] at hc
            subst hc
            rw [hout, ho] at h
            simp only [Outcome.returned.injEq] at h
            subst h
            exact hne
        · intro cj2 hcj
          rw [hre, hev3] at hcj
          simp only [jobReads_cons, jobReads_nil, Event.jobRead?, Option.toList,
            List.append_nil, List.mem_singleton, Except.ok.injEq] at hcj
          subst hcj
          exact hne
      · have hfinal : (main o fuel s).outcome = .returned ⟨job, pods, cj⟩ := by
          rcases hcl with ⟨e2, hc, _⟩ | ⟨cj2, hc, ho⟩
          · rw [hout3] at hc
            simp at hc
          · rw [hout3] at hc
            simp only [Outcome.returned.injEq] at hc
            subst hc
            rw [hout, ho]
        have hstate : (main o fuel s).state =
            (deletePods o pods
              (o.JobsDelete (o.JobsGet (collectLogs o pods s2).state kubeNamespace
                job.ObjectMeta.Name).2 kubeNamespace cj.ObjectMeta.Name).2).1 := by
          rw [hst, hst2, hst3]
        refine Or.inr ⟨job, pods, cj,
          pre ++ .podsList kubeNamespace (.ok pods) :: (collectLogs o pods s2).events,
          (cleanup o job.ObjectMeta.Name pods (collectLogs o pods s2).state).events,
          (collectLogs o pods s2).state,
          hfinal, h1, ?_, ?_, ?_, ?_, ?_, ?_, ?_, by simp [hcr], ?_, ?_, hget, ?_, ?_⟩
        · simp [hev, hev2]
        · simp [hd, Event.deleteRequest?]
        · simp [hls, Event.listing?]
        · simp [hev3, Event.listing?]
        · simp [hev3, Event.logFetch?]
        · obtain ⟨r, hr, hobs1⟩ := hobs
          refine ⟨r, ?_, hobs1⟩
          rw [pollReads, hev, hev2, hsplit.1]
          exact hr
        · intro p hp
          obtain ⟨logs, hmem⟩ := collectLogs_fetched o pods s2 hlo p hp
          exact ⟨logs, by simp [hmem]⟩
        · simp [hev3, Event.deleteRequest?, deletePods_deleteRequests]
        · rw [hre, hev3]
          simp [Event.jobRead?]
        · rw [hstate, deletePods_state]
        · intro present hc hok p hp hcomp
          rw [hstate]
          refine (deletePods_removes o present hc pods _ ?_).2 p hp hcomp
          intro ns name resp hmem
          exact hok ns name resp (by simp [hev, hev2, hev3, hmem])

/-- When `main` stops inside the polling loop its outcome is that of the loop:
here, still polling. -/
theorem main_polling_of_poll (fuel : Nat) (s : σ) (job : Job)
    (hb : o.BuildConfigFromFlags = .ok ()) (hn : o.NewForConfig = .ok ())
    (hc : (o.JobsCreate s kubeNamespace jobDefinition).1 = .ok job)
    (hp : (pollLoop o job.ObjectMeta.Name fuel
      (o.JobsCreate s kubeNamespace jobDefinition).2).outcome = .polling) :
    (main o fuel s).outcome = .polling := by
  simp [main, hb, hn, hc, hp]

/-- Fuel only bounds the polling: once the loop has stopped within `fuel`
iterations, more fuel changes nothing. -/
theorem pollLoop_add_fuel (jobName : String) (fuel k : Nat) (s : σ)
    (h : (pollLoop o jobName fuel s).outcome ≠ .polling) :
    pollLoop o jobName (fuel + k) s = pollLoop o jobName fuel s := by
  induction fuel generalizing s with
  | zero => simp [pollLoop] at h
  | succ n ih =>
    rw [Nat.add_right_comm]
    simp only [pollLoop] at h ⊢
    cases hget : (o.JobsGet s kubeNamespace jobName).1 with
    | error err => simp
    | ok checkJob =>
      simp only [hget] at h
      by_cases h1 : checkJob.Status.Succeeded = 1
      · simp [h1]
      · simp only [h1, if_false] at h ⊢
        rw [ih _ h]

/-- A run of `main` that is not cut short by the fuel is the same run under
any larger fuel. -/
theorem main_add_fuel (fuel k : Nat) (s : σ)
    (h : (main o fuel s).outcome ≠ .polling) :
    main o (fuel + k) s = main o fuel s := by
  cases hb : o.BuildConfigFromFlags with
  | error err => simp [main, hb]
  | ok _ =>
    cases hn : o.NewForConfig with
    | error err => simp [main, hb, hn]
    | ok _ =>
      cases hc : (o.JobsCreate s kubeNamespace jobDefinition).1 with
      | error err => simp [main, hb, hn, hc]
      | ok job =>
        have hp : (pollLoop o job.ObjectMeta.Name fuel
            (o.JobsCreate s kubeNamespace jobDefinition).2).outcome ≠ .polling := by
          intro hp
          exact h (main_polling_of_poll o fuel s job (by rw [hb]) (by rw [hn]) hc hp)
        simp only [main, hb, hn, hc, pollLoop_add_fuel o _ fuel k _ hp]

end CleanupLemmas

/-! ## Facts about the simulated cluster -/

/-- Reading a job `k` times in `sim` only advances the read counter. -/
theorem sim_pollState (readyAt : Option Nat) (noLogs : List String) (name : String) (j : Job)
    (k : Nat) (s : Sim) (h : s.jobs.find? (fun j => j.ObjectMeta.Name == name) = some j) :
    pollState (sim readyAt noLogs) name k s = { s with reads := s.reads + k } := by
  induction k generalizing s with
  | zero => simp [pollState]
  | succ k ih =>
    have hstep : ((sim readyAt noLogs).JobsGet s kubeNamespace name).2
        = { s with reads := s.reads + 1 } := by
      simp [sim, h]
    rw [pollState, hstep, ih _ (by simpa using h)]
    simp [Nat.add_assoc, Nat.add_comm 1 k]

/-- Every read of a stored job is answered in `sim`. -/
theorem sim_sample_ok (readyAt : Option Nat) (noLogs : List String) (name : String) (j : Job)
    (s : Sim) (h : s.jobs.find? (fun j => j.ObjectMeta.Name == name) = some j) (k : Nat) :
    ∃ c, sample (sim readyAt noLogs) name s k = .ok c := by
  rw [sample, sim_pollState readyAt noLogs name j k s h]
  simp [sim, h]

/-- With `readyAt = none` every sample of a stored job shows `Succeeded = 0`. -/
theorem sim_never_ready (noLogs : List String) (name : String) (j : Job)
    (s : Sim) (h : s.jobs.find? (fun j => j.ObjectMeta.Name == name) = some j) (k : Nat) :
    sampleSucceeded (sim none noLogs) name s k = some 0 := by
  rw [sampleSucceeded, sample, sim_pollState none noLogs name j k s h]
  simp [sim, h]

theorem simStarted_find :
    simStarted.jobs.find? (fun j => j.ObjectMeta.Name == simJobName) =
      some { jobDefinition with
        ObjectMeta := { jobDefinition.ObjectMeta with Name := simJobName } } := by
  decide

/-- In `sim` a pod delete answered without error removes the named pod and
adds none. -/
theorem sim_delete_removes (readyAt : Option Nat) (noLogs : List String) :
    DeleteRemoves (sim readyAt noLogs) simPresent := by
  intro t name h
  simp only [sim] at h ⊢
  by_cases hany : (t.pods.any fun p => p.ObjectMeta.Name == name) = true
  · simp only [hany, if_true]
    constructor
    · simp [simPresent]
    · intro n hn
      simp only [simPresent, List.any_eq_true, List.mem_filter] at hn ⊢
      obtain ⟨p, ⟨hp, _⟩, hpn⟩ := hn
      exact ⟨p, hp, hpn⟩
  · simp [hany] at h

/-! ## Claims on the polling loop -/

/-- C3, refuted as stated: in `sim` with a job that never becomes ready every
status query is answered with `succeededCount = 0`, and the polling loop,
hence `main`, is still polling after any number of iterations. -/
theorem poll_runs_forever_on_zero_samples :
    (∀ k, sampleSucceeded (sim none []) simJobName simStarted k = some 0) ∧
    (¬ ∃ fuel, (pollLoop (sim none []) simJobName fuel simStarted).outcome ≠ .polling) ∧
    ¬ ∃ fuel, (main (sim none []) fuel sim0).outcome ≠ .polling := by
  have h0 := sim_never_ready [] simJobName _ simStarted simStarted_find
  have hpoll : ∀ fuel, (pollLoop (sim none []) simJobName fuel simStarted).outcome = .polling := by
    intro fuel
    rw [pollLoop_polling_iff]
    intro k _
    exact ⟨0, h0 k, by decide⟩
  refine ⟨h0, ?_, ?_⟩
  · rintro ⟨fuel, h⟩
    exact h (hpoll fuel)
  · rintro ⟨fuel, h⟩
    apply h
    have hp := hpoll fuel
    have hcreate : ((sim none []).JobsCreate sim0 kubeNamespace jobDefinition).1
        = .ok { jobDefinition with
            ObjectMeta := { jobDefinition.ObjectMeta with Name := simJobName } } := by
      decide
    have hstate : ((sim none []).JobsCreate sim0 kubeNamespace jobDefinition).2 = simStarted := rfl
    exact main_polling_of_poll (sim none []) fuel sim0 _ rfl rfl hcreate (hstate ▸ hp)

/-- C3, as the code has it: the polling loop stops exactly when some status
query fails or some sample shows `succeededCount = 1`.  Nothing else ends it:
there is no maximum wait and the failed count is not read. -/
theorem poll_terminates_iff {σ : Type} (o : Orchestrator σ) (jobName : String) (s : σ) :
    (∃ fuel, (pollLoop o jobName fuel s).outcome ≠ .polling) ↔
      ∃ k, sampleSucceeded o jobName s k = some 1 ∨ sampleSucceeded o jobName s k = none := by
  constructor
  · rintro ⟨fuel, h⟩
    rw [Ne, pollLoop_polling_iff] at h
    push_neg at h
    obtain ⟨k, _, hk⟩ := h
    refine ⟨k, ?_⟩
    cases hs : sampleSucceeded o jobName s k with
    | none => exact Or.inr rfl
    | some c =>
      left
      rw [hk c hs]
  · rintro ⟨k, hk⟩
    refine ⟨k + 1, ?_⟩
    rw [Ne, pollLoop_polling_iff]
    intro hall
    obtain ⟨c, hc, hne⟩ := hall k (Nat.lt_succ_self k)
    rcases hk with hk | hk
    · rw [hk] at hc
      exact hne (Option.some.inj hc).symm
    · rw [hk] at hc
      exact absurd hc (by simp)

/-! ## Claims on log collection and cleanup -/

/-- C1: every pod delete request of a run is in the program's namespace and
names a pod of the pod listing that carries both `app = jobWorker` and
`component = jobs`; and, pod names being unique in the listing, a listed pod
lacking either label is never named by a pod delete request. -/
theorem pod_deletes_name_labelled_listed_pods {σ : Type} (o : Orchestrator σ)
    (fuel : Nat) (s : σ) :
    (∀ ns name, DeleteRequest.pod ns name ∈ deleteRequests (main o fuel s).events →
      ns = kubeNamespace ∧
      ∃ pods, listings (main o fuel s).events = [.ok pods] ∧
        ∃ p ∈ pods, p.ObjectMeta.Name = name ∧
          hasLabel p "app" "jobWorker" ∧ hasLabel p "component" "jobs") ∧
    (∀ pods, Except.ok pods ∈ listings (main o fuel s).events →
      (pods.map (fun p => p.ObjectMeta.Name)).Nodup →
      ∀ p ∈ pods, (¬ hasLabel p "app" "jobWorker" ∨ ¬ hasLabel p "component" "jobs") →
        ∀ ns, DeleteRequest.pod ns p.ObjectMeta.Name ∉
          deleteRequests (main o fuel s).events) := by
  rcases main_deletes o fuel s with ⟨hnone, _⟩ |
    ⟨job, pods, cj, pre, post, st, _, _, hev, hdpre, hlpre, hlpost, _, _, _, _, hdpost, _⟩
  · simp [hnone]
  · have hdel : deleteRequests (main o fuel s).events =
        .job kubeNamespace cj.ObjectMeta.Name ::
          (pods.filter isCompletedJobPod).map
            (fun p => DeleteRequest.pod kubeNamespace p.ObjectMeta.Name) := by
      simp [hev, hdpre, hdpost]
    have hlist : listings (main o fuel s).events = [.ok pods] := by
      simp [hev, hlpre, hlpost]
    have hmem : ∀ ns name, DeleteRequest.pod ns name ∈ deleteRequests (main o fuel s).events →
        ns = kubeNamespace ∧ ∃ p ∈ pods, isCompletedJobPod p = true ∧ p.ObjectMeta.Name = name := by
      intro ns name h
      rw [hdel] at h
      simp only [List.mem_cons, reduceCtorEq, false_or, List.mem_map, List.mem_filter,
        DeleteRequest.pod.injEq] at h
      obtain ⟨p, ⟨hp, hc⟩, hns, hn⟩ := h
      exact ⟨hns.symm, p, hp, hc, hn⟩
    constructor
    · intro ns name h
      obtain ⟨hns, p, hp, hc, hn⟩ := hmem ns name h
      have hl := (isCompletedJobPod_iff p).1 hc
      exact ⟨hns, pods, hlist, p, hp, hn, hl.2.1, hl.2.2⟩
    · intro pods2 hin hnd p hp hlack ns h
      rw [hlist] at hin
      simp only [List.mem_singleton, Except.ok.injEq] at hin
      subst hin
      obtain ⟨_, q, hq, hc, hn⟩ := hmem ns _ h
      have hqp : q = p := List.inj_on_of_nodup_map hnd hq hp hn
      subst hqp
      have hl := (isCompletedJobPod_iff q).1 hc
      rcases hlack with h1 | h1
      · exact h1 hl.2.1
      · exact h1 hl.2.2

/-- C1, at a concrete run: with a labelled completed pod and an unlabelled one
listed, the first is deleted and carries both labels, the second is not. -/
theorem pod_deletes_name_labelled_listed_pods_witness :
    DeleteRequest.pod kubeNamespace workerPod.ObjectMeta.Name ∈
      deleteRequests (main (sim (some 0) []) 3 sim0).events ∧
    (∃ pods, listings (main (sim (some 0) []) 3 sim0).events = [.ok pods] ∧
      ∃ p ∈ pods, p.ObjectMeta.Name = workerPod.ObjectMeta.Name ∧
        hasLabel p "app" "jobWorker" ∧ hasLabel p "component" "jobs") ∧
    DeleteRequest.pod kubeNamespace strangerPod.ObjectMeta.Name ∉
      deleteRequests (main (sim (some 0) []) 3 sim0).events :=
  ⟨by decide,
    ((pod_deletes_name_labelled_listed_pods (sim (some 0) []) 3 sim0).1 kubeNamespace
      workerPod.ObjectMeta.Name (by decide)).2,
    (pod_deletes_name_labelled_listed_pods (sim (some 0) []) 3 sim0).2
      [workerPod, strangerPod] (by decide) (by decide) strangerPod (by decide)
      (Or.inl (by decide)) kubeNamespace⟩

/-- C4, refuted as stated: in a run over a listing that holds the worker pod
and a pod with no labels, the logs of the unlabelled pod are requested too. -/
theorem logs_requested_for_unlabelled_pod :
    listings (main (sim (some 0) []) 3 sim0).events = [.ok [workerPod, strangerPod]] ∧
    ¬ hasLabel strangerPod "app" "jobWorker" ∧
    ¬ hasLabel strangerPod "component" "jobs" ∧
    strangerPod.ObjectMeta.Name ∈ logRequests (main (sim (some 0) []) 3 sim0).events := by
  decide

/-- C4, as the code has it: the logs are requested for the pods of the listing
in listing order, one request per pod and labels not consulted, up to the
first fetch that fails: a failed fetch is the last request, every request
before it was answered, and the run then panics at line 179 with that error;
when no fetch fails the logs are requested for every listed pod. -/
theorem logs_requested_for_every_listed_pod {σ : Type} (o : Orchestrator σ)
    (fuel : Nat) (s : σ) (pods : List Pod)
    (h : Except.ok pods ∈ listings (main o fuel s).events) :
    logRequests (main o fuel s).events <+: pods.map (fun p => p.ObjectMeta.Name) ∧
    ((∀ name e, (name, Except.error e) ∉ logFetches (main o fuel s).events) →
      logRequests (main o fuel s).events = pods.map (fun p => p.ObjectMeta.Name)) ∧
    (∀ name e, (name, Except.error e) ∈ logFetches (main o fuel s).events →
      ∃ oks, logFetches (main o fuel s).events = oks ++ [(name, .error e)] ∧
        ∀ f ∈ oks, ∃ logs, f.2 = Except.ok logs) ∧
    (∀ e, (main o fuel s).outcome = .panicked 179 e ↔
      ∃ name, (name, Except.error e) ∈ logFetches (main o fuel s).events) := by
  rcases main_shape o fuel s with hA | ⟨job, pre, s1, _, _, hlf, hls, hev, hout, _⟩
  · rw [hA.2.2.2.2.2.2.2.1] at h
    simp at h
  · rcases afterPoll_shape o job s1 with
      ⟨e, hev2, _⟩ | ⟨pods2, s2, e, hlo, hev2, hout2⟩ | ⟨pods2, s2, hlo, hev2, _, hcl⟩
    · simp [hev, hev2, hls, Event.listing?] at h
    · simp only [hev, hev2, listings_append, hls, listings_cons, Event.listing?,
        collectLogs_listings, Option.toList, List.nil_append, List.cons_append,
        List.mem_singleton, Except.ok.injEq] at h
      subst h
      have hfet : logFetches (main o fuel s).events
          = logFetches (collectLogs o pods s2).events := by
        simp [hev, hev2, hlf, Event.logFetch?]
      have hreq : logRequests (main o fuel s).events
          = logRequests (collectLogs o pods s2).events := by
        simp [logRequests, hfet]
      rw [hreq, hfet, hout, hout2]
      refine ⟨(collectLogs_logRequests o pods s2).1, ?_, ?_, ?_⟩
      · intro hno
        exact (collectLogs_logRequests o pods s2).2
          ((collectLogs_returned_iff o pods s2).2 hno)
      · intro name e2 hmem
        exact collectLogs_failed_last o pods s2 name e2 hmem
      · intro e2
        constructor
        · intro h2
          simp only [Outcome.panicked.injEq, true_and] at h2
          subst h2
          obtain ⟨oks, name, hf, _⟩ := collectLogs_panicked_fetch o pods s2 179 e hlo
          exact ⟨name, by simp [hf]⟩
        · rintro ⟨name, hmem⟩
          have hp := collectLogs_failed o pods s2 name e2 hmem
          rw [hlo] at hp
          simp only [Outcome.panicked.injEq, true_and] at hp
          rw [hp]
    · simp only [hev, hev2, listings_append, hls, listings_cons, Event.listing?,
        collectLogs_listings, cleanup_listings, Option.toList, List.nil_append,
        List.cons_append, List.append_nil, List.mem_singleton, Except.ok.injEq] at h
      subst h
      have hfet : logFetches (main o fuel s).events
          = logFetches (collectLogs o pods s2).events := by
        simp [hev, hev2, hlf, Event.logFetch?]
      have hreq : logRequests (main o fuel s).events
          = logRequests (collectLogs o pods s2).events := by
        simp [logRequests, hfet]
      have hnone := (collectLogs_returned_iff o pods s2).1 hlo
      rw [hreq, hfet]
      refine ⟨(collectLogs_logRequests o pods s2).1,
        fun _ => (collectLogs_logRequests o pods s2).2 hlo, ?_, ?_⟩
      · intro name e2 hmem
        exact absurd hmem (hnone name e2)
      · intro e2
        constructor
        · intro h2
          rw [hout] at h2
          rcases hcl with ⟨e3, _, ho⟩ | ⟨cj, _, ho⟩
          · rw [ho] at h2
            simp at h2
          · rw [ho] at h2
            simp at h2
        · rintro ⟨name, hmem⟩
          exact absurd hmem (hnone name e2)

/-- C4 amended, at two concrete runs: with every fetch answered, both listed
pods have their logs requested, in listing order; with the fetch for the
worker pod failing, that request is the only one and the run panics at
line 179. -/
theorem logs_requested_for_every_listed_pod_witness :
    Except.ok [workerPod, strangerPod] ∈ listings (main (sim (some 0) []) 3 sim0).events ∧
    logRequests (main (sim (some 0) []) 3 sim0).events =
      [workerPod.ObjectMeta.Name, strangerPod.ObjectMeta.Name] ∧
    logFetches (main (sim (some 0) [workerPod.ObjectMeta.Name]) 3 sim0).events =
      [(workerPod.ObjectMeta.Name, .error "logs unavailable")] ∧
    (main (sim (some 0) [workerPod.ObjectMeta.Name]) 3 sim0).outcome =
      .panicked 179 "logs unavailable" := by
  have hall : ∀ f ∈ logFetches (main (sim (some 0) []) 3 sim0).events,
      (match f.2 with
        | .ok _ => true
        | .error _ => false) = true := by
    decide
  have hno : ∀ name e,
      (name, Except.error e) ∉ logFetches (main (sim (some 0) []) 3 sim0).events :=
    fun name e hmem => by simpa using hall _ hmem
  have hfail := logs_requested_for_every_listed_pod
    (sim (some 0) [workerPod.ObjectMeta.Name]) 3 sim0 [workerPod, strangerPod] (by decide)
  exact ⟨by decide,
    (logs_requested_for_every_listed_pod (sim (some 0) []) 3 sim0 [workerPod, strangerPod]
      (by decide)).2.1 hno,
    by decide,
    (hfail.2.2.2 "logs unavailable").2 ⟨workerPod.ObjectMeta.Name, by decide⟩⟩

/-- C5, refuted as stated: a run in which the poller saw the job succeeded and
the log fetch for the worker pod then failed panics at line 179 and issues no
`DeleteJob` request, nor any other delete. -/
theorem failed_log_fetch_skips_cleanup :
    (∃ r ∈ jobReads (main (sim (some 0) [workerPod.ObjectMeta.Name]) 3 sim0).events,
      observedSuccess r = true) ∧
    (workerPod.ObjectMeta.Name, Except.error "logs unavailable") ∈
      logFetches (main (sim (some 0) [workerPod.ObjectMeta.Name]) 3 sim0).events ∧
    (main (sim (some 0) [workerPod.ObjectMeta.Name]) 3 sim0).outcome =
      .panicked 179 "logs unavailable" ∧
    DeleteRequest.job kubeNamespace simJobName ∉
      deleteRequests (main (sim (some 0) [workerPod.ObjectMeta.Name]) 3 sim0).events ∧
    deleteRequests (main (sim (some 0) [workerPod.ObjectMeta.Name]) 3 sim0).events = [] := by
  decide

/-- C5, as the code has it: a failed log fetch ends the run with the panic of
line 179, carrying the error of the fetch, and the run issues no delete
request at all. -/
theorem failed_log_fetch_aborts_run {σ : Type} (o : Orchestrator σ)
    (fuel : Nat) (s : σ) (name e : String)
    (h : (name, Except.error e) ∈ logFetches (main o fuel s).events) :
    (main o fuel s).outcome = .panicked 179 e ∧
      deleteRequests (main o fuel s).events = [] := by
  rcases main_shape o fuel s with hA | ⟨job, pre, s1, _, hd, hlf, _, hev, hout, _⟩
  · rw [hA.2.2.2.2.2.2.1] at h
    simp at h
  · rcases afterPoll_shape o job s1 with
      ⟨e2, hev2, _⟩ | ⟨pods, s2, e2, hlo, hev2, hout2⟩ | ⟨pods, s2, hlo, hev2, _⟩
    · simp [hev, hev2, hlf, Event.logFetch?] at h
    · have hin : (name, Except.error e) ∈ logFetches (collectLogs o pods s2).events := by
        simpa [hev, hev2, hlf, Event.logFetch?] using h
      have hp := collectLogs_failed o pods s2 name e hin
      rw [hlo] at hp
      simp only [Outcome.panicked.injEq, true_and] at hp
      subst hp
      exact ⟨hout.trans hout2, by simp [hev, hev2, hd, Event.deleteRequest?]⟩
    · have hin : (name, Except.error e) ∈ logFetches (collectLogs o pods s2).events := by
        simpa [hev, hev2, hlf, Event.logFetch?] using h
      have hp := collectLogs_failed o pods s2 name e hin
      rw [hlo] at hp
      simp at hp

/-- C5 amended, at a concrete run: the fetch for the worker pod fails, the run
panics at line 179 and deletes nothing. -/
theorem failed_log_fetch_aborts_run_witness :
    (workerPod.ObjectMeta.Name, Except.error "logs unavailable") ∈
      logFetches (main (sim (some 0) [workerPod.ObjectMeta.Name]) 3 sim0).events ∧
    (main (sim (some 0) [workerPod.ObjectMeta.Name]) 3 sim0).outcome =
      .panicked 179 "logs unavailable" ∧
    deleteRequests (main (sim (some 0) [workerPod.ObjectMeta.Name]) 3 sim0).events = [] :=
  ⟨by decide,
    failed_log_fetch_aborts_run (sim (some 0) [workerPod.ObjectMeta.Name]) 3 sim0
      workerPod.ObjectMeta.Name "logs unavailable" (by decide)⟩

/-- C6, refuted as stated: the first cleanup deletes the job and the worker
pod and returns; run again for the same job on the state it left, the cleanup
step has its re-read answered `not found` and panics at line 189. -/
theorem second_cleanup_panics_on_absent_job :
    firstCleanup.outcome = .returned simJobDone ∧
    deleteRequests firstCleanup.events =
      [.job kubeNamespace simJobName, .pod kubeNamespace workerPod.ObjectMeta.Name] ∧
    firstCleanup.state.jobs = [] ∧
    firstCleanup.state.pods = [strangerPod] ∧
    secondCleanup.events = [.jobsGet kubeNamespace simJobName (.error "not found")] ∧
    secondCleanup.outcome = .panicked 189 "not found" := by
  decide

/-- C6, as the code has it: the answers to the delete calls are discarded, so
once the re-read of the job is answered the cleanup step returns whatever the
deletes answer, `not found` included; but when the re-read itself fails, as
with `not found` for a job already deleted, the step panics at line 189 with
that error and issues no delete request. -/
theorem cleanup_outcome_decided_by_reread {σ : Type} (o : Orchestrator σ)
    (jobName : String) (pods : List Pod) (s : σ) :
    (∀ cj, (o.JobsGet s kubeNamespace jobName).1 = .ok cj →
      (cleanup o jobName pods s).outcome = .returned cj) ∧
    (∀ e, (o.JobsGet s kubeNamespace jobName).1 = .error e →
      (cleanup o jobName pods s).outcome = .panicked 189 e ∧
        deleteRequests (cleanup o jobName pods s).events = []) := by
  rcases cleanup_shape o jobName pods s with
    ⟨e, hget, hev, hout⟩ | ⟨cj, hget, _, _, hout⟩ | ⟨cj, hget, _, _, hout, _⟩
  · refine ⟨fun cj h => by simp [hget] at h, fun e2 h => ?_⟩
    rw [hget] at h
    simp only [Except.error.injEq] at h
    subst h
    exact ⟨hout, by simp [hev, Event.deleteRequest?]⟩
  · refine ⟨fun cj2 h => ?_, fun e h => by simp [hget] at h⟩
    rw [hget] at h
    simp only [Except.ok.injEq] at h
    subst h
    exact hout
  · refine ⟨fun cj2 h => ?_, fun e h => by simp [hget] at h⟩
    rw [hget] at h
    simp only [Except.ok.injEq] at h
    subst h
    exact hout

/-- C6 amended, at concrete states: with the job still stored and the listed
worker pod already gone, the pod delete is answered `not found` and the step
returns; with the job gone, the step panics at line 189 and deletes nothing. -/
theorem cleanup_outcome_decided_by_reread_witness :
    Event.podsDelete kubeNamespace workerPod.ObjectMeta.Name (.error "not found") ∈
      (cleanup (sim (some 0) []) simJobName [workerPod]
        { simStarted with pods := [] }).events ∧
    (cleanup (sim (some 0) []) simJobName [workerPod]
      { simStarted with pods := [] }).outcome = .returned simJobDone ∧
    secondCleanup.outcome = .panicked 189 "not found" ∧
    deleteRequests secondCleanup.events = [] :=
  ⟨by decide,
    (cleanup_outcome_decided_by_reread (sim (some 0) []) simJobName [workerPod]
      { simStarted with pods := [] }).1 simJobDone (by decide),
    (cleanup_outcome_decided_by_reread (sim (some 0) []) simJobName sim0.pods
      firstCleanup.state).2 "not found" (by decide)⟩

/-- C9: in a run that reaches the cleanup step with its re-read of the job
answered `Succeeded = 1`, the run returns and its delete requests are: one for
the job, under the name the re-read object carries, which is the name assigned
at creation when `Get` answers with the object asked for; then, in listing
order, one for each listed pod in phase `Succeeded` carrying both labels; and
nothing else.  The run ends in the cluster state those delete calls leave.
Hence, on a cluster where an answered pod delete removes the pod, when every
listed pod carrying both labels was `Succeeded` and every pod delete was
answered without error, no listed pod carrying both labels is in the
namespace in the final state. -/
theorem cleanup_deletes_job_then_completed_pods {σ : Type} (o : Orchestrator σ)
    (fuel : Nat) (s : σ) (cj : Job)
    (hre : Except.ok cj ∈ rereads (main o fuel s).events)
    (hs : cj.Status.Succeeded = 1) :
    ∃ job pods st,
      (main o fuel s).outcome = .returned ⟨job, pods, cj⟩ ∧
      Event.jobsCreate kubeNamespace jobDefinition (.ok job) ∈ (main o fuel s).events ∧
      listings (main o fuel s).events = [.ok pods] ∧
      (o.JobsGet st kubeNamespace job.ObjectMeta.Name).1 = .ok cj ∧
      (GetReturnsNamed o → cj.ObjectMeta.Name = job.ObjectMeta.Name) ∧
      deleteRequests (main o fuel s).events =
        .job kubeNamespace cj.ObjectMeta.Name ::
          (pods.filter (fun p => decide (p.Status.Phase = "Succeeded" ∧
              hasLabel p "app" "jobWorker" ∧ hasLabel p "component" "jobs"))).map
            (fun p => DeleteRequest.pod kubeNamespace p.ObjectMeta.Name) ∧
      (main o fuel s).state =
        afterPodDeletes o
          (o.JobsDelete (o.JobsGet st kubeNamespace job.ObjectMeta.Name).2 kubeNamespace
            cj.ObjectMeta.Name).2
          (pods.filter (fun p => decide (p.Status.Phase = "Succeeded" ∧
            hasLabel p "app" "jobWorker" ∧ hasLabel p "component" "jobs"))) ∧
      ∀ present : σ → String → Prop, DeleteRemoves o present →
        (∀ p ∈ pods, hasLabel p "app" "jobWorker" → hasLabel p "component" "jobs" →
          p.Status.Phase = "Succeeded") →
        (∀ ns name resp, Event.podsDelete ns name resp ∈ (main o fuel s).events →
          resp = .ok ()) →
        ∀ p ∈ pods, hasLabel p "app" "jobWorker" ∧ hasLabel p "component" "jobs" →
          ¬ present (main o fuel s).state p.ObjectMeta.Name := by
  rcases main_deletes o fuel s with ⟨_, _, hno⟩ |
    ⟨job, pods, cj2, pre, post, st, hout, _, hev, hdpre, hlpre, hlpost, _, _, _, hcr, hdpost,
      hre2, hget, hstate, hrem⟩
  · exact absurd hs (hno cj hre)
  · rw [hre2] at hre
    simp only [List.mem_singleton, Except.ok.injEq] at hre
    subst hre
    have hfilter : pods.filter isCompletedJobPod =
        pods.filter (fun p => decide (p.Status.Phase = "Succeeded" ∧
          hasLabel p "app" "jobWorker" ∧ hasLabel p "component" "jobs")) := by
      apply List.filter_congr
      intro p _
      rw [Bool.eq_iff_iff, isCompletedJobPod_iff]
      simp
    refine ⟨job, pods, st, hout, by simp [hev, hcr], by simp [hev, hlpre, hlpost], hget,
      fun hnamed => hnamed st _ _ hget, ?_, ?_, ?_⟩
    · rw [← hfilter]
      simp [hev, hdpre, hdpost]
    · rw [← hfilter]
      exact hstate
    · intro present hc hphase hok p hp hlab
      exact hrem present hc hok p hp
        ((isCompletedJobPod_iff p).2 ⟨hphase p hp hlab.1 hlab.2, hlab.1, hlab.2⟩)

/-- C9, at a concrete run: the re-read shows the job succeeded; the job is
deleted first, then the worker pod; the final namespace holds no job and only
the unlabelled pod, and the worker pod is not in it. -/
theorem cleanup_deletes_job_then_completed_pods_witness :
    Except.ok simJobDone ∈ rereads (main (sim (some 0) []) 3 sim0).events ∧
    (main (sim (some 0) []) 3 sim0).outcome =
      .returned ⟨simJob, [workerPod, strangerPod], simJobDone⟩ ∧
    deleteRequests (main (sim (some 0) []) 3 sim0).events =
      [.job kubeNamespace simJobName, .pod kubeNamespace workerPod.ObjectMeta.Name] ∧
    (main (sim (some 0) []) 3 sim0).state.jobs = [] ∧
    (main (sim (some 0) []) 3 sim0).state.pods = [strangerPod] ∧
    ¬ simPresent (main (sim (some 0) []) 3 sim0).state workerPod.ObjectMeta.Name := by
  have hre : Except.ok simJobDone ∈ rereads (main (sim (some 0) []) 3 sim0).events := by
    decide
  obtain ⟨job, pods, st, _, _, hlist, _, _, _, _, hrem⟩ :=
    cleanup_deletes_job_then_completed_pods (sim (some 0) []) 3 sim0 simJobDone hre
      (by decide)
  have hl2 : listings (main (sim (some 0) []) 3 sim0).events =
      [.ok [workerPod, strangerPod]] := by decide
  rw [hl2] at hlist
  simp only [List.cons.injEq, Except.ok.injEq, and_true] at hlist
  subst hlist
  have hall : ∀ e ∈ (main (sim (some 0) []) 3 sim0).events,
      (match e with
        | .podsDelete _ _ r => decide (r = .ok ())
        | _ => true) = true := by
    decide
  refine ⟨hre, by decide, by decide, by decide, by decide, ?_⟩
  exact hrem simPresent (sim_delete_removes (some 0) []) (by decide)
    (fun ns name resp hmem => by simpa using hall _ hmem)
    workerPod (by simp) (by decide)

/-- At most one pod listing is made in a run. -/
theorem main_listings_le_one {σ : Type} (o : Orchestrator σ) (fuel : Nat) (s : σ) :
    (listings (main o fuel s).events).length ≤ 1 := by
  rcases main_shape o fuel s with hA | ⟨job, pre, s1, _, _, _, hls, hev, _⟩
  · simp [hA.2.2.2.2.2.2.2.1]
  · rcases afterPoll_shape o job s1 with
      ⟨e, hev2, _⟩ | ⟨pods2, s2, e, _, hev2, _⟩ | ⟨pods2, s2, _, hev2, _⟩ <;>
    simp [hev, hev2, hls, Event.listing?]

/-- C10: the trace of a run splits in two parts: no delete request is issued
in the first, no log fetch and no listing in the second, and every pod named
by a delete request of the second part had its log fetched, with an answer and
no error, in the first.  The run makes at most one listing. -/
theorem deleted_pods_had_logs_fetched {σ : Type} (o : Orchestrator σ)
    (fuel : Nat) (s : σ) :
    (listings (main o fuel s).events).length ≤ 1 ∧
    ∃ pre post, (main o fuel s).events = pre ++ post ∧
      deleteRequests pre = [] ∧ logFetches post = [] ∧ listings post = [] ∧
      ∀ ns name, DeleteRequest.pod ns name ∈ deleteRequests post →
        ∃ logs, Event.podsGetLogs ns name (.ok logs) ∈ pre := by
  refine ⟨main_listings_le_one o fuel s, ?_⟩
  rcases main_deletes o fuel s with ⟨hnone, _⟩ |
    ⟨job, pods, cj, pre, post, st, _, _, hev, hdpre, _, hlpost, hfpost, _, hlogs, _, hdpost, _⟩
  · exact ⟨(main o fuel s).events, [], by simp, hnone, rfl, rfl, by simp⟩
  · refine ⟨pre, post, hev, hdpre, hfpost, hlpost, ?_⟩
    intro ns name h
    rw [hdpost] at h
    simp only [List.mem_cons, reduceCtorEq, false_or, List.mem_map, List.mem_filter,
      DeleteRequest.pod.injEq] at h
    obtain ⟨p, ⟨hp, _⟩, rfl, rfl⟩ := h
    exact hlogs p hp

/-- C8: the job definition has the fixed shape: one init container (at least
one), exactly one main container, exactly one volume, an empty-directory
volume, which every container mounts at `/tmp/results`; restart policy
`OnFailure`; parallelism and completions 1; template labels exactly
`app = jobWorker`, `component = jobs`. -/
theorem jobDefinition_shape :
    1 ≤ jobDefinition.Spec.Template.Spec.InitContainers.length ∧
    jobDefinition.Spec.Template.Spec.Containers.length = 1 ∧
    (∃ v : Volume, jobDefinition.Spec.Template.Spec.Volumes = [v] ∧
      v.VolumeSource.EmptyDir.isSome = true ∧
      ∀ c ∈ jobDefinition.Spec.Template.Spec.InitContainers ++
          jobDefinition.Spec.Template.Spec.Containers,
        mountsAt c v.Name "/tmp/results") ∧
    jobDefinition.Spec.Template.Spec.RestartPolicy = "OnFailure" ∧
    jobDefinition.Spec.Parallelism = some 1 ∧
    jobDefinition.Spec.Completions = some 1 ∧
    jobDefinition.Spec.Template.ObjectMeta.Labels =
      [("app", "jobWorker"), ("component", "jobs")] := by
  refine ⟨by decide, by decide, ⟨_, rfl, rfl, ?_⟩, rfl, rfl, rfl, rfl⟩
  intro c hc
  simp [jobDefinition] at hc
  rcases hc with rfl | rfl <;> simp [mountsAt, resultsMountPath]

end PocBatch
